import Mathlib

/-!
A shallow embedding of the WizSeries visualization engine (C++/WebAssembly)
in Lean 4, over exact rational arithmetic.

Conventions used throughout:
* `float` values are modelled as `ℚ`; decimal literals of the C++ source
  (`0.08f`, `1e-6f`, `0.001f`, ...) are read as exact decimal fractions.
* `static_cast<int>` on a float is truncation toward zero (`truncQ`).
* `std::clamp`, `std::min`, `std::max` become their exact counterparts.
* Loops become structural recursions or `List.range` maps; a C++ loop
  `for (v = step; v < limit; v += step)` over exact arithmetic visits exactly
  the values `(i+1)*step` for `i` below the number of steps (`tickVals`).
* GPU calls are side effects outside the numeric model; each visualizer's
  `render` is embedded as a function producing the vertex lists it hands to
  the `GLRenderer` draw calls, together with a few instrumentation fields
  (per-term records, the running-sum accumulator, the guard of the
  convergence marker) that record values of local variables of the source.
* `std::sin(time * 3.0f)` is transcendental; renders that use it take the
  value of that subexpression as an extra argument `s3`, which only feeds
  the pulse alpha of the indicator lines.
-/

/-- C++ `static_cast<int>` applied to a float truncates toward zero. -/
def truncQ (x : ℚ) : ℤ := if 0 ≤ x then ⌊x⌋ else ⌈x⌉

/-- `std::clamp(x, lo, hi)` on floats (for `lo ≤ hi`). -/
def clampQ (x lo hi : ℚ) : ℚ := min (max x lo) hi

/-- `std::clamp(x, lo, hi)` on ints (for `lo ≤ hi`). -/
def clampZ (x lo hi : ℤ) : ℤ := min (max x lo) hi

theorem truncQ_intCast (z : ℤ) : truncQ (z : ℚ) = z := by
  unfold truncQ; split <;> simp

theorem truncQ_natCast (n : ℕ) : truncQ (n : ℚ) = n := by
  have h := truncQ_intCast (n : ℤ)
  rwa [Int.cast_natCast] at h

theorem truncQ_mono {x y : ℚ} (h : x ≤ y) : truncQ x ≤ truncQ y := by
  unfold truncQ
  by_cases hx : 0 ≤ x
  · by_cases hy : 0 ≤ y
    · rw [if_pos hx, if_pos hy]
      exact Int.floor_le_floor h
    · exact absurd (le_trans hx h) hy
  · by_cases hy : 0 ≤ y
    · rw [if_neg hx, if_pos hy]
      have h1 : (⌈x⌉ : ℤ) ≤ 0 := Int.ceil_le.mpr (by push_cast; linarith [lt_of_not_ge hx])
      have h2 : (0 : ℤ) ≤ ⌊y⌋ := Int.le_floor.mpr (by exact_mod_cast hy)
      omega
    · rw [if_neg hx, if_neg hy]
      exact Int.ceil_le_ceil h

theorem le_truncQ_of_natCast_le {n : ℕ} {x : ℚ} (h : (n : ℚ) ≤ x) :
    (n : ℤ) ≤ truncQ x := by
  have h1 := truncQ_mono h
  rwa [truncQ_natCast] at h1

theorem clampQ_ge {x lo hi : ℚ} (hlh : lo ≤ hi) : lo ≤ clampQ x lo hi :=
  le_min (le_max_right x lo) hlh

theorem clampQ_le {x lo hi : ℚ} : clampQ x lo hi ≤ hi := min_le_right _ _

theorem clampQ_eq_self {x lo hi : ℚ} (h1 : lo ≤ x) (h2 : x ≤ hi) :
    clampQ x lo hi = x := by
  unfold clampQ
  rw [max_eq_left h1, min_eq_left h2]

theorem clampQ_idem {x lo hi : ℚ} (hlh : lo ≤ hi) :
    clampQ (clampQ x lo hi) lo hi = clampQ x lo hi :=
  clampQ_eq_self (clampQ_ge hlh) clampQ_le

theorem clampZ_idem {x lo hi : ℤ} (hlh : lo ≤ hi) :
    clampZ (clampZ x lo hi) lo hi = clampZ x lo hi := by
  unfold clampZ; omega

theorem clampZ_truncQ_cast (x : ℚ) {lo hi : ℤ} (hlh : lo ≤ hi) :
    clampZ (truncQ ((clampZ (truncQ x) lo hi : ℤ) : ℚ)) lo hi =
      clampZ (truncQ x) lo hi := by
  rw [truncQ_intCast, clampZ_idem hlh]

/-- The per-term fade-in fraction `std::clamp(revealed - idx, 0.0f, 1.0f)`
(`idx` the 0-based term index). -/
def revealAlpha (revealed : ℚ) (idx : ℕ) : ℚ := clampQ (revealed - (idx : ℚ)) 0 1

theorem revealAlpha_eq_one_iff (rev : ℚ) (j : ℕ) :
    revealAlpha rev j = 1 ↔ 1 ≤ rev - (j : ℚ) := by
  unfold revealAlpha clampQ
  rw [min_eq_right_iff, le_max_iff]
  constructor
  · rintro (h | h)
    · exact h
    · linarith
  · exact fun h => Or.inl h

theorem revealAlpha_nonpos_iff (rev : ℚ) (j : ℕ) :
    revealAlpha rev j ≤ 0 ↔ rev - (j : ℚ) ≤ 0 := by
  unfold revealAlpha clampQ
  constructor
  · intro h
    by_contra hc
    push_neg at hc
    have h1 : (0 : ℚ) < max (rev - (j : ℚ)) 0 := lt_max_of_lt_left hc
    have h2 : (0 : ℚ) < min (max (rev - (j : ℚ)) 0) 1 := lt_min h1 one_pos
    linarith
  · intro h
    rw [max_eq_right h]
    simp

/-- `std::min(terms, static_cast<int>(revealed) + 1)`: how many terms the
reveal loop iterates over this frame (an `int` in the source; negative when
`revealed` is very negative, in which case the loop body runs zero times). -/
def visibleCount (terms : ℕ) (revealed : ℚ) : ℤ :=
  min (terms : ℤ) (truncQ revealed + 1)

theorem visibleCount_toNat_mono (terms : ℕ) {r1 r2 : ℚ} (h : r1 ≤ r2) :
    (visibleCount terms r1).toNat ≤ (visibleCount terms r2).toNat := by
  have h1 := truncQ_mono h
  unfold visibleCount
  omega

theorem visibleCount_eq_terms (terms : ℕ) {r : ℚ} (h : (terms : ℚ) ≤ r) :
    visibleCount terms r = terms := by
  have h1 := le_truncQ_of_natCast_le h
  unfold visibleCount
  omega

/-- The shared vertex layout: 2-D position plus RGBA color. -/
structure Vertex where
  x : ℚ
  y : ℚ
  r : ℚ
  g : ℚ
  b : ℚ
  a : ℚ
deriving DecidableEq

/-- The six vertices `addQuad` pushes for a screen-aligned quad
(two triangles sharing the diagonal, in source push order). -/
def quadVerts (x1 y1 x2 y2 r g b a : ℚ) : List Vertex :=
  [⟨x1, y1, r, g, b, a⟩, ⟨x2, y1, r, g, b, a⟩, ⟨x1, y2, r, g, b, a⟩,
   ⟨x2, y1, r, g, b, a⟩, ⟨x2, y2, r, g, b, a⟩, ⟨x1, y2, r, g, b, a⟩]

/-- `ISeriesVisualizer::hsvToRgb`. The `switch (i % 6)` with `i` nonnegative
(the wrapped hue lies in `[0,1)`), and the callers' zero-initialized
`cr{}, cg{}, cb{}` for the unreachable default. -/
def hsvToRgb (h s v : ℚ) : ℚ × ℚ × ℚ :=
  let h1 := h - (truncQ h : ℚ)
  let h2 := if h1 < 0 then h1 + 1 else h1
  let i := (truncQ (h2 * 6)).toNat
  let f := h2 * 6 - (i : ℚ)
  let p := v * (1 - s)
  let q := v * (1 - f * s)
  let t := v * (1 - (1 - f) * s)
  match i % 6 with
  | 0 => (v, t, p)
  | 1 => (q, v, p)
  | 2 => (p, v, t)
  | 3 => (p, q, v)
  | 4 => (t, p, v)
  | 5 => (v, p, q)
  | _ => (0, 0, 0)

/-- The values visited by a C++ loop `for (v = step; v < limit; v += step)`
in exact arithmetic: `(i+1)*step` for every `i` with `(i+1)*step < limit`. -/
def tickVals (step limit : ℚ) : List ℚ :=
  (List.range (⌈limit / step⌉ - 1).toNat).map (fun i => ((i : ℚ) + 1) * step)

/-- One reveal-loop iteration's outputs: the 0-based term index, the fade-in
alpha of that term, the six bar-quad vertices pushed by `addQuad`, and the
vertex appended to the running-sum polyline. -/
structure Bar where
  idx : ℕ
  alpha : ℚ
  verts : List Vertex
  sumPt : Vertex
deriving DecidableEq

/-- The shared shape of the per-term reveal loops: iteration `k` (0-based)
advances the loop accumulator (running sum, current power, current
factorial, ...) by `step k` and emits one `Bar` built by `mk` from the
accumulator values before and after the advance. `barLoop ... n` is the
state after the first `n` iterations: the emitted bars in order and the
final accumulator. -/
def barLoop {α : Type} (init : α) (step : ℕ → α → α) (mk : ℕ → α → α → Bar) :
    ℕ → List Bar × α
  | 0 => ([], init)
  | n + 1 =>
      let p := barLoop init step mk n
      (p.1 ++ [mk n p.2 (step n p.2)], step n p.2)

theorem barLoop_snd_succ {α : Type} (init : α) (step : ℕ → α → α)
    (mk : ℕ → α → α → Bar) (n : ℕ) :
    (barLoop init step mk (n + 1)).2 = step n (barLoop init step mk n).2 := rfl

theorem barLoop_fst_succ {α : Type} (init : α) (step : ℕ → α → α)
    (mk : ℕ → α → α → Bar) (n : ℕ) :
    (barLoop init step mk (n + 1)).1 =
      (barLoop init step mk n).1 ++
        [mk n (barLoop init step mk n).2 (step n (barLoop init step mk n).2)] := rfl

theorem barLoop_mem_shape {α : Type} (init : α) (step : ℕ → α → α)
    (mk : ℕ → α → α → Bar) (n : ℕ) :
    ∀ b ∈ (barLoop init step mk n).1, ∃ k a, b = mk k a (step k a) := by
  induction n with
  | zero => intro b hb; simp [barLoop] at hb
  | succ n ih =>
      intro b hb
      rw [barLoop_fst_succ, List.mem_append] at hb
      rcases hb with hb | hb
      · exact ih b hb
      · rw [List.mem_singleton] at hb
        exact ⟨n, (barLoop init step mk n).2, hb⟩

theorem barLoop_opaque_iff {α : Type} (init : α) (step : ℕ → α → α)
    (mk : ℕ → α → α → Bar) (rev : ℚ)
    (hidx : ∀ k a b, (mk k a b).idx = k)
    (ha : ∀ k a b, (mk k a b).alpha = revealAlpha rev k) (n j : ℕ) :
    (∃ b ∈ (barLoop init step mk n).1, b.idx = j ∧ b.alpha = 1) ↔
      j < n ∧ revealAlpha rev j = 1 := by
  induction n with
  | zero => simp [barLoop]
  | succ n ih =>
      rw [barLoop_fst_succ]
      constructor
      · rintro ⟨b, hb, hbj, hba⟩
        rw [List.mem_append] at hb
        rcases hb with hb | hb
        · have h1 := ih.mp ⟨b, hb, hbj, hba⟩
          exact ⟨Nat.lt_succ_of_lt h1.1, h1.2⟩
        · rw [List.mem_singleton] at hb
          subst hb
          rw [hidx] at hbj
          rw [ha] at hba
          subst hbj
          exact ⟨Nat.lt_succ_self _, hba⟩
      · rintro ⟨hj, hone⟩
        rcases Nat.lt_succ_iff_lt_or_eq.mp hj with hj | hj
        · obtain ⟨b, hb, h⟩ := ih.mpr ⟨hj, hone⟩
          exact ⟨b, List.mem_append_left _ hb, h⟩
        · refine ⟨mk n (barLoop init step mk n).2 (step n (barLoop init step mk n).2),
            List.mem_append_right _ (List.mem_singleton_self _), ?_, ?_⟩
          · rw [hidx, hj]
          · rw [ha, ← hj]
            exact hone

/-- Decides that a vertex list is a whole number of `addQuad` quads, each
with nonnegative extent (first pushed corner at or below-left of the fifth,
the opposite one). -/
def quadsWF : List Vertex → Bool
  | [] => true
  | v1 :: _ :: _ :: _ :: v5 :: _ :: rest =>
      (decide (v1.x ≤ v5.x) && decide (v1.y ≤ v5.y)) && quadsWF rest
  | _ => false

theorem quadsWF_quadVerts {x1 y1 x2 y2 r g b a : ℚ} (h1 : x1 ≤ x2) (h2 : y1 ≤ y2) :
    quadsWF (quadVerts x1 y1 x2 y2 r g b a) = true := by
  simp [quadVerts, quadsWF, h1, h2]

theorem quadsWF_append {l2 : List Vertex} (h2 : quadsWF l2 = true) :
    ∀ {l1 : List Vertex}, quadsWF l1 = true → quadsWF (l1 ++ l2) = true := by
  intro l1
  induction l1 using quadsWF.induct with
  | case1 =>
      intro _
      simpa using h2
  | case2 v1 v2 v3 v4 v5 v6 rest ih =>
      intro h1
      simp only [quadsWF, Bool.and_eq_true] at h1
      simp only [List.cons_append, quadsWF, Bool.and_eq_true]
      exact ⟨h1.1, ih h1.2⟩
  | case3 t h0 h6 =>
      intro h1
      exfalso
      rcases t with _ | ⟨a, _ | ⟨b, _ | ⟨c, _ | ⟨d, _ | ⟨e, _ | ⟨f, rest⟩⟩⟩⟩⟩⟩
      · exact h0 rfl
      · exact Bool.false_ne_true h1
      · exact Bool.false_ne_true h1
      · exact Bool.false_ne_true h1
      · exact Bool.false_ne_true h1
      · exact Bool.false_ne_true h1
      · exact h6 a b c d e f rest rfl

theorem quadsWF_flatten {L : List (List Vertex)} (h : ∀ l ∈ L, quadsWF l = true) :
    quadsWF L.flatten = true := by
  induction L with
  | nil => rfl
  | cons hd tl ih =>
      rw [List.flatten_cons]
      exact quadsWF_append (ih (fun l hl => h l (List.mem_cons_of_mem hd hl)))
        (h hd (List.mem_cons_self hd tl))

/-- Output of a bottom-anchored bar-series `render` (harmonic, Basel,
e-series, Apéry): the four vertex lists handed to the renderer's draw calls,
plus the per-term records and the final value of the `partialSum`
accumulator. -/
structure SeriesOut where
  grid : List Vertex
  quads : List Vertex
  axes : List Vertex
  sumLine : List Vertex
  bars : List Bar
  partialSum : ℚ
deriving DecidableEq

/-- HarmonicProgressionVisualizer: the pre-scan loop accumulating
`maxSum += 1/k` for `k = 1..terms`. -/
def harmonicMaxSum (terms : ℕ) : ℚ := ∑ k ∈ Finset.range terms, 1 / ((k : ℚ) + 1)

/-- HarmonicProgressionVisualizer: `partialSum += 1/k` at 0-based index
`k' = k - 1`. -/
def harmonicStep (k : ℕ) (psum : ℚ) : ℚ := psum + 1 / ((k : ℚ) + 1)

/-- The locals that the per-term loop bodies of the bottom-anchored bar variants (harmonic, Basel, e-series, Apéry) read. -/
structure BarsCtx where
  xMin : ℚ
  yMin : ℚ
  yMax : ℚ
  barW : ℚ
  barGap : ℚ
  yScale : ℚ
  revealed : ℚ
  terms : ℕ
deriving DecidableEq

/-- One iteration of the harmonic reveal loop, 0-based (`k = idx + 1` in the
source); `post` is `partialSum` after `partialSum += term`. -/
def harmonicMk (c : BarsCtx) (k : ℕ) (_pre post : ℚ) : Bar :=
  let term := 1 / ((k : ℚ) + 1)
  let alpha := revealAlpha c.revealed k
  let x1 := c.xMin + (k : ℚ) * c.barW + c.barGap
  let x2 := c.xMin + ((k : ℚ) + 1) * c.barW - c.barGap
  let yB := c.yMin + (term / c.yScale) * (c.yMax - c.yMin)
  let hue := 0.07 - 0.05 * (k : ℚ) / ((max (c.terms - 1) 1 : ℕ) : ℚ)
  let col := hsvToRgb hue 0.65 0.80
  let sx := c.xMin + (((k : ℚ) + 1) - 0.5) * c.barW
  let sy := c.yMin + (post / c.yScale) * (c.yMax - c.yMin)
  { idx := k
    alpha := alpha
    verts := quadVerts x1 c.yMin x2 yB col.1 col.2.1 col.2.2 (alpha * 0.85)
    sumPt := ⟨sx, sy, 0.10, 0.30, 0.70, alpha⟩ }

/-- The grid spacing chosen by the two sequential `if`s of the source. -/
def harmonicGridStep (yScale : ℚ) : ℚ :=
  if yScale > 16 then 4 else if yScale > 8 then 2 else 1

/-- HarmonicProgressionVisualizer::render (the axis-decorated variant that
clamps `terms` to 1..2000), with `terms` already read and clamped and `s3`
the value of `std::sin(time * 3.0f)`. -/
def harmonicRenderCore (terms : ℕ) (time s3 : ℚ) : SeriesOut :=
  let xMin : ℚ := -1 + 0.14
  let xMax : ℚ := 1 - 0.06
  let yMin : ℚ := -1 + 0.12
  let yMax : ℚ := 1 - 0.08
  let maxSum := harmonicMaxSum terms
  let yScale := max 1 maxSum * 1.1
  let barW := (xMax - xMin) / (terms : ℚ)
  let barGap := barW * 0.12
  let revealed := time * 10
  let visI := visibleCount terms revealed
  let gstep := harmonicGridStep yScale
  let grid := (tickVals gstep yScale).flatMap (fun v =>
    [⟨xMin, yMin + (v / yScale) * (yMax - yMin), 0.78, 0.76, 0.74, 0.30⟩,
     ⟨xMax, yMin + (v / yScale) * (yMax - yMin), 0.78, 0.76, 0.74, 0.30⟩])
  let c : BarsCtx := ⟨xMin, yMin, yMax, barW, barGap, yScale, revealed, terms⟩
  let loop := barLoop 0 harmonicStep (harmonicMk c) visI.toNat
  let quads := (loop.1.map Bar.verts).flatten
  let sumLine := loop.1.map Bar.sumPt
  let axesBase : List Vertex :=
    [⟨xMin, yMin, 0.30, 0.28, 0.26, 0.8⟩, ⟨xMax, yMin, 0.30, 0.28, 0.26, 0.8⟩,
     ⟨xMin, yMin, 0.30, 0.28, 0.26, 0.8⟩, ⟨xMin, yMax, 0.30, 0.28, 0.26, 0.8⟩]
  let ticks := (tickVals gstep yScale).flatMap (fun v =>
    [⟨xMin - 0.015, yMin + (v / yScale) * (yMax - yMin), 0.30, 0.28, 0.26, 0.7⟩,
     ⟨xMin + 0.01, yMin + (v / yScale) * (yMax - yMin), 0.30, 0.28, 0.26, 0.7⟩])
  let pulse := 0.5 + 0.5 * s3
  let indicator : List Vertex :=
    if (terms : ℤ) ≤ visI ∧ 5 < (terms : ℤ) then
      [⟨xMin, yMin + (loop.2 / yScale) * (yMax - yMin), 0.85, 0.20, 0.20, 0.4 + 0.4 * pulse⟩,
       ⟨xMax, yMin + (loop.2 / yScale) * (yMax - yMin), 0.85, 0.20, 0.20, 0.4 + 0.4 * pulse⟩]
    else []
  ⟨grid, quads, axesBase ++ ticks ++ indicator, sumLine, loop.1, loop.2⟩

/-- HarmonicProgressionVisualizer::render: reads parameter `terms`
(defaulting to 30 when absent; the parameter value is the argument here) and
clamps it to 1..2000. -/
def harmonicRender (termsParam time s3 : ℚ) : SeriesOut :=
  harmonicRenderCore (clampZ (truncQ termsParam) 1 2000).toNat time s3

theorem harmonic_loop_psum (c : BarsCtx) (n : ℕ) :
    (barLoop 0 harmonicStep (harmonicMk c) n).2 =
      ∑ k ∈ Finset.range n, 1 / ((k : ℚ) + 1) := by
  induction n with
  | zero => simp [barLoop]
  | succ n ih =>
      rw [barLoop_snd_succ, ih, Finset.sum_range_succ, harmonicStep]

/-- C1: for the harmonic visualizer with a terms parameter N in 1..2000 and a
time at which every term is visible, the final value of the running
`partialSum` accumulator (the value plotted, before y-scaling, by the last
partial-sum polyline point) is the sum of 1/k for k = 1..N. -/
theorem harmonic_partial_sum_correct (N : ℕ) (t s3 : ℚ) (h1 : 1 ≤ N)
    (h2 : N ≤ 2000) (h3 : (N : ℚ) ≤ t * 10) :
    (harmonicRender (N : ℚ) t s3).partialSum =
      ∑ k ∈ Finset.range N, 1 / ((k : ℚ) + 1) := by
  unfold harmonicRender
  have hterm : (clampZ (truncQ ((N : ℚ))) 1 2000).toNat = N := by
    rw [truncQ_natCast]
    unfold clampZ
    omega
  rw [hterm]
  have hvis : (visibleCount N (t * 10)).toNat = N := by
    rw [visibleCount_eq_terms N h3]
    exact Int.toNat_natCast N
  show (barLoop 0 harmonicStep (harmonicMk _) (visibleCount N (t * 10)).toNat).2 = _
  rw [hvis, harmonic_loop_psum]

theorem harmonic_partial_sum_witness :
    (harmonicRender ((3 : ℕ) : ℚ) 1 0).partialSum =
      ∑ k ∈ Finset.range 3, 1 / ((k : ℚ) + 1) :=
  harmonic_partial_sum_correct 3 1 0 (by norm_num) (by norm_num) (by norm_num)

/-- One call of CantorSetVisualizer::generateCantor that reached `addQuad`:
the recursion arguments `level`, `left`, `right`, the fade-in `alpha` of the
level, and the six vertices pushed. -/
structure CSeg where
  level : ℕ
  left : ℚ
  right : ℚ
  alpha : ℚ
  verts : List Vertex
deriving DecidableEq

/-- CantorSetVisualizer::generateCantor (the `margin = 0.08` variant of
src/cpp/series/CantorSetVisualizer.h), as a pre-order list of the emitted
segments. The extra `fuel` argument makes the descending recursion on
`level` structural; every caller passes `maxDepth + 2`, which the guard
`maxDepth < level` makes sufficient, so the `fuel = 0` branch is never
reached from `cantorRenderCore`. -/
def generateCantor (xMin xMax yTop barH gap revealed : ℚ) :
    ℕ → ℚ → ℚ → ℕ → ℕ → List CSeg
  | 0, _, _, _, _ => []
  | fuel + 1, left, right, level, maxDepth =>
      if maxDepth < level then []
      else
        let alpha := revealAlpha revealed level
        if alpha ≤ 0 then []
        else
          let x1 := xMin + left * (xMax - xMin)
          let x2 := xMin + right * (xMax - xMin)
          let y1 := yTop - (level : ℚ) * gap
          let y2 := y1 - barH
          let hue := 0.58 + (level : ℚ) * 0.055
          let col := hsvToRgb hue 0.65 (0.80 + 0.20 * alpha)
          let third := (right - left) / 3
          ⟨level, left, right, alpha,
              quadVerts x1 y2 x2 y1 col.1 col.2.1 col.2.2 alpha⟩ ::
            (generateCantor xMin xMax yTop barH gap revealed fuel
                left (left + third) (level + 1) maxDepth ++
             generateCantor xMin xMax yTop barH gap revealed fuel
                (right - third) right (level + 1) maxDepth)

/-- Output of CantorSetVisualizer::render: the recursion's segments, their
flattened quad vertices (in `addQuad` order), and the axis/tick lines. -/
structure CantorOut where
  segs : List CSeg
  quads : List Vertex
  axes : List Vertex
deriving DecidableEq

/-- CantorSetVisualizer::render with `depth` already read and clamped. -/
def cantorRenderCore (depth : ℕ) (time : ℚ) : CantorOut :=
  let xMin : ℚ := -1 + 0.08
  let xMax : ℚ := 1 - 0.08
  let yMin : ℚ := -1 + 0.08
  let yMax : ℚ := 1 - 0.08
  let totalH := yMax - yMin
  let gap := totalH / ((depth : ℚ) + 1)
  let barH := gap * 0.70
  let revealed := time * 1.5
  let segs := generateCantor xMin xMax yMax barH gap revealed (depth + 2) 0 1 0 depth
  let axesBase : List Vertex :=
    [⟨xMin, yMin, 0.25, 0.25, 0.35, 0.6⟩, ⟨xMax, yMin, 0.25, 0.25, 0.35, 0.6⟩,
     ⟨xMin, yMin, 0.25, 0.25, 0.35, 0.6⟩, ⟨xMin, yMax, 0.25, 0.25, 0.35, 0.6⟩]
  let ticks := (List.range (depth + 1)).flatMap (fun lv =>
    [⟨xMin - 0.01, yMax - (lv : ℚ) * gap - barH * 0.5, 0.35, 0.35, 0.45, 0.5⟩,
     ⟨xMin + 0.02, yMax - (lv : ℚ) * gap - barH * 0.5, 0.35, 0.35, 0.45, 0.5⟩])
  ⟨segs, (segs.map CSeg.verts).flatten, axesBase ++ ticks⟩

/-- CantorSetVisualizer::render: reads parameter `depth` (default 6) and
clamps it to 1..12. -/
def cantorRender (depthParam time : ℚ) : CantorOut :=
  cantorRenderCore (clampZ (truncQ depthParam) 1 12).toNat time

theorem generateCantor_level_ge (xMin xMax yTop barH gap revealed : ℚ) :
    ∀ (fuel : ℕ) (left right : ℚ) (level maxDepth : ℕ),
      ∀ s ∈ generateCantor xMin xMax yTop barH gap revealed fuel left right
          level maxDepth, level ≤ s.level := by
  intro fuel
  induction fuel with
  | zero =>
      intro l r lv md s hs
      simp [generateCantor] at hs
  | succ f ih =>
      intro l r lv md s hs
      simp only [generateCantor] at hs
      by_cases h1 : md < lv
      · rw [if_pos h1] at hs
        simp at hs
      · rw [if_neg h1] at hs
        by_cases h2 : revealAlpha revealed lv ≤ 0
        · rw [if_pos h2] at hs
          simp at hs
        · rw [if_neg h2] at hs
          rcases List.mem_cons.mp hs with rfl | hs
          · exact le_refl _
          · rcases List.mem_append.mp hs with hs | hs
            · exact le_trans (Nat.le_succ lv) (ih _ _ (lv + 1) md s hs)
            · exact le_trans (Nat.le_succ lv) (ih _ _ (lv + 1) md s hs)

theorem map_sum_const {α : Type} (f : α → ℚ) {w : ℚ} :
    ∀ {l : List α}, (∀ s ∈ l, f s = w) → (l.map f).sum = l.length * w := by
  intro l
  induction l with
  | nil =>
      intro _
      simp
  | cons a l ih =>
      intro h
      simp only [List.map_cons, List.sum_cons, List.length_cons,
        ih (fun s hs => h s (List.mem_cons_of_mem a hs)),
        h a (List.mem_cons_self a l)]
      push_cast
      ring

theorem generateCantor_filter_level (xMin xMax yTop barH gap revealed : ℚ)
    (d maxDepth : ℕ) (hrev : (maxDepth : ℚ) + 1 ≤ revealed) (hd : d ≤ maxDepth) :
    ∀ (fuel : ℕ) (left right : ℚ) (level : ℕ), level ≤ d →
      maxDepth + 2 ≤ fuel + level →
      (((generateCantor xMin xMax yTop barH gap revealed fuel left right level
            maxDepth).filter (fun s => s.level == d)).length = 2 ^ (d - level) ∧
        ∀ s ∈ (generateCantor xMin xMax yTop barH gap revealed fuel left right
            level maxDepth).filter (fun s => s.level == d),
          s.right - s.left = (right - left) / 3 ^ (d - level)) := by
  intro fuel
  induction fuel with
  | zero =>
      intro left right level hld hfuel
      omega
  | succ f ih =>
      intro left right level hld hfuel
      have hmd : ¬ (maxDepth < level) := by omega
      have halpha : ¬ (revealAlpha revealed level ≤ 0) := by
        rw [revealAlpha_nonpos_iff]
        intro hcon
        have hcast : (level : ℚ) ≤ (maxDepth : ℚ) := by
          exact_mod_cast le_trans hld hd
        linarith
      simp only [generateCantor, if_neg hmd, if_neg halpha]
      by_cases heq : level = d
      · subst heq
        have hchild : ∀ (a b : ℚ) (s : CSeg),
            s ∈ generateCantor xMin xMax yTop barH gap revealed f a b
              (level + 1) maxDepth → ¬ ((s.level == level) = true) := by
          intro a b s hs hcon
          have h1 := generateCantor_level_ge xMin xMax yTop barH gap revealed
            f a b (level + 1) maxDepth s hs
          rw [beq_iff_eq] at hcon
          omega
        rw [List.filter_cons_of_pos (by simp), List.filter_append,
          List.filter_eq_nil_iff.mpr (hchild _ _), List.filter_eq_nil_iff.mpr (hchild _ _)]
        constructor
        · simp
        · intro s hs
          rcases List.mem_cons.mp hs with rfl | hs
          · simp
          · simp at hs
      · have hlt : level < d := lt_of_le_of_ne hld heq
        have harith : d - level = (d - (level + 1)) + 1 := by omega
        obtain ⟨ihl1, ihl2⟩ := ih left (left + (right - left) / 3) (level + 1)
          (by omega) (by omega)
        obtain ⟨ihr1, ihr2⟩ := ih (right - (right - left) / 3) right (level + 1)
          (by omega) (by omega)
        rw [List.filter_cons_of_neg (by simp [heq]), List.filter_append]
        constructor
        · rw [List.length_append, ihl1, ihr1, harith, pow_succ]
          ring
        · intro s hs
          have hw : left + (right - left) / 3 - left = (right - left) / 3 := by ring
          have hw2 : right - (right - (right - left) / 3) = (right - left) / 3 := by
            ring
          have hdiv : (right - left) / 3 / 3 ^ (d - (level + 1)) =
              (right - left) / 3 ^ (d - level) := by
            rw [div_div, harith, pow_succ']
          rcases List.mem_append.mp hs with hs | hs
          · rw [ihl2 s hs, hw, hdiv]
          · rw [ihr2 s hs, hw2, hdiv]

/-- C2: at depth parameter d (0..12), once every level is revealed, the bars
generated at recursion level d number 2^d, each spans a width (1/3)^d of the
unit interval, and together they cover (2/3)^d of the original span. -/
theorem cantor_level_lengths (d : ℕ) (t : ℚ) (hd : d ≤ 12)
    (ht : 13 ≤ t * 1.5) :
    (((cantorRender (d : ℚ) t).segs.filter (fun s => s.level == d)).length =
        2 ^ d) ∧
      (∀ s ∈ (cantorRender (d : ℚ) t).segs.filter (fun s => s.level == d),
          s.right - s.left = (1 / 3 : ℚ) ^ d) ∧
      (((cantorRender (d : ℚ) t).segs.filter (fun s => s.level == d)).map
          (fun s => s.right - s.left)).sum = ((2 : ℚ) / 3) ^ d := by
  have hdepth : (clampZ (truncQ ((d : ℕ) : ℚ)) 1 12).toNat = max d 1 := by
    rw [truncQ_natCast]
    unfold clampZ
    omega
  have hdd : d ≤ max d 1 := le_max_left d 1
  have hrev : ((max d 1 : ℕ) : ℚ) + 1 ≤ t * 1.5 := by
    have hm : max d 1 ≤ 12 := by omega
    have hc : ((max d 1 : ℕ) : ℚ) ≤ 12 := by exact_mod_cast hm
    linarith
  unfold cantorRender
  rw [hdepth]
  obtain ⟨h1, h2⟩ := generateCantor_filter_level (-1 + 0.08) (1 - 0.08)
    (1 - 0.08) (((1 - 0.08) - (-1 + 0.08)) / (((max d 1 : ℕ) : ℚ) + 1) * 0.70)
    (((1 - 0.08) - (-1 + 0.08)) / (((max d 1 : ℕ) : ℚ) + 1)) (t * 1.5) d
    (max d 1) hrev hdd (max d 1 + 2) 0 1 0 (Nat.zero_le d) (by omega)
  have hsegs : (cantorRenderCore (max d 1) t).segs =
      generateCantor (-1 + 0.08) (1 - 0.08) (1 - 0.08)
        (((1 - 0.08) - (-1 + 0.08)) / (((max d 1 : ℕ) : ℚ) + 1) * 0.70)
        (((1 - 0.08) - (-1 + 0.08)) / (((max d 1 : ℕ) : ℚ) + 1)) (t * 1.5)
        (max d 1 + 2) 0 1 0 (max d 1) := rfl
  rw [hsegs]
  have hwidth : ∀ s ∈ (generateCantor (-1 + 0.08) (1 - 0.08) (1 - 0.08)
      (((1 - 0.08) - (-1 + 0.08)) / (((max d 1 : ℕ) : ℚ) + 1) * 0.70)
      (((1 - 0.08) - (-1 + 0.08)) / (((max d 1 : ℕ) : ℚ) + 1)) (t * 1.5)
      (max d 1 + 2) 0 1 0 (max d 1)).filter (fun s => s.level == d),
      s.right - s.left = (1 / 3 : ℚ) ^ d := by
    intro s hs
    rw [h2 s hs, Nat.sub_zero, one_div_pow]
    norm_num
  refine ⟨by simpa using h1, hwidth, ?_⟩
  have hsum := map_sum_const (fun s : CSeg => s.right - s.left) hwidth
  rw [hsum, show (List.filter (fun s => s.level == d)
      (generateCantor (-1 + 0.08) (1 - 0.08) (1 - 0.08)
        (((1 - 0.08) - (-1 + 0.08)) / (((max d 1 : ℕ) : ℚ) + 1) * 0.70)
        (((1 - 0.08) - (-1 + 0.08)) / (((max d 1 : ℕ) : ℚ) + 1)) (t * 1.5)
        (max d 1 + 2) 0 1 0 (max d 1))).length = 2 ^ d from by simpa using h1]
  push_cast
  rw [← mul_pow]
  norm_num

theorem cantor_level_lengths_witness :
    ((((cantorRender ((1 : ℕ) : ℚ) 10).segs.filter
          (fun s => s.level == 1)).length = 2 ^ 1) ∧
      (∀ s ∈ (cantorRender ((1 : ℕ) : ℚ) 10).segs.filter
          (fun s => s.level == 1), s.right - s.left = (1 / 3 : ℚ) ^ 1) ∧
      (((cantorRender ((1 : ℕ) : ℚ) 10).segs.filter
          (fun s => s.level == 1)).map (fun s => s.right - s.left)).sum =
        ((2 : ℚ) / 3) ^ 1) :=
  cantor_level_lengths 1 10 (by norm_num) (by norm_num)

theorem generateCantor_level_le (xMin xMax yTop barH gap revealed : ℚ) :
    ∀ (fuel : ℕ) (left right : ℚ) (level maxDepth : ℕ),
      ∀ s ∈ generateCantor xMin xMax yTop barH gap revealed fuel left right
          level maxDepth, s.level ≤ maxDepth := by
  intro fuel
  induction fuel with
  | zero =>
      intro l r lv md s hs
      simp [generateCantor] at hs
  | succ f ih =>
      intro l r lv md s hs
      simp only [generateCantor] at hs
      by_cases h1 : md < lv
      · rw [if_pos h1] at hs
        simp at hs
      · rw [if_neg h1] at hs
        by_cases h2 : revealAlpha revealed lv ≤ 0
        · rw [if_pos h2] at hs
          simp at hs
        · rw [if_neg h2] at hs
          rcases List.mem_cons.mp hs with rfl | hs
          · simpa using le_of_not_lt h1
          · rcases List.mem_append.mp hs with hs | hs
            · exact ih _ _ (lv + 1) md s hs
            · exact ih _ _ (lv + 1) md s hs

theorem generateCantor_verts_len (xMin xMax yTop barH gap revealed : ℚ) :
    ∀ (fuel : ℕ) (left right : ℚ) (level maxDepth : ℕ),
      ∀ s ∈ generateCantor xMin xMax yTop barH gap revealed fuel left right
          level maxDepth, s.verts.length = 6 := by
  intro fuel
  induction fuel with
  | zero =>
      intro l r lv md s hs
      simp [generateCantor] at hs
  | succ f ih =>
      intro l r lv md s hs
      simp only [generateCantor] at hs
      by_cases h1 : md < lv
      · rw [if_pos h1] at hs
        simp at hs
      · rw [if_neg h1] at hs
        by_cases h2 : revealAlpha revealed lv ≤ 0
        · rw [if_pos h2] at hs
          simp at hs
        · rw [if_neg h2] at hs
          rcases List.mem_cons.mp hs with rfl | hs
          · simp [quadVerts]
          · rcases List.mem_append.mp hs with hs | hs
            · exact ih _ _ (lv + 1) md s hs
            · exact ih _ _ (lv + 1) md s hs

theorem nat_map_sum_const {α : Type} (f : α → ℕ) {w : ℕ} :
    ∀ {l : List α}, (∀ s ∈ l, f s = w) → (l.map f).sum = l.length * w := by
  intro l
  induction l with
  | nil =>
      intro _
      simp
  | cons a l ih =>
      intro h
      simp only [List.map_cons, List.sum_cons, List.length_cons,
        ih (fun s hs => h s (List.mem_cons_of_mem a hs)),
        h a (List.mem_cons_self a l)]
      ring

theorem length_eq_sum_filter_levels {n : ℕ} :
    ∀ {l : List CSeg}, (∀ s ∈ l, s.level < n) →
      l.length = ∑ d ∈ Finset.range n,
        (l.filter (fun s => s.level == d)).length := by
  intro l
  induction l with
  | nil =>
      intro _
      simp
  | cons a l ih =>
      intro h
      have hstep : ∀ d, ((a :: l).filter (fun s => s.level == d)).length =
          (if a.level = d then 1 else 0) +
            (l.filter (fun s => s.level == d)).length := by
        intro d
        by_cases hd : a.level = d
        · rw [List.filter_cons_of_pos (by simp [hd]), if_pos hd]
          simp [Nat.add_comm]
        · rw [List.filter_cons_of_neg (by simp [hd]), if_neg hd]
          simp
      simp only [List.length_cons, hstep, Finset.sum_add_distrib]
      rw [Finset.sum_ite_eq (Finset.range n) a.level (fun _ => 1),
        if_pos (Finset.mem_range.mpr (h a (List.mem_cons_self a l))),
        ← ih (fun s hs => h s (List.mem_cons_of_mem a hs))]
      omega

/-- C8: the Cantor visualizer at depth 3 and time 10 (revealed = 15, every
level fully revealed) emits exactly 2^0 + 2^1 + 2^2 + 2^3 = 15 bar segments,
2^lv of them at each recursion level lv = 0..3, hence 15 quads
(15 * 6 vertices). -/
theorem cantor_depth3_segment_count :
    ((cantorRender ((3 : ℕ) : ℚ) 10).segs.length = 15) ∧
      (∀ lv : ℕ, lv ≤ 3 → ((cantorRender ((3 : ℕ) : ℚ) 10).segs.filter
          (fun s => s.level == lv)).length = 2 ^ lv) ∧
      ((cantorRender ((3 : ℕ) : ℚ) 10).quads.length = 15 * 6) := by
  have hdepth : (clampZ (truncQ ((3 : ℕ) : ℚ)) 1 12).toNat = 3 := by
    rw [truncQ_natCast]
    unfold clampZ
    omega
  unfold cantorRender
  rw [hdepth]
  have hrev : (((3 : ℕ) : ℕ) : ℚ) + 1 ≤ (10 : ℚ) * 1.5 := by push_cast; norm_num
  have hsegs : (cantorRenderCore 3 10).segs =
      generateCantor (-1 + 0.08) (1 - 0.08) (1 - 0.08)
        (((1 - 0.08) - (-1 + 0.08)) / (((3 : ℕ) : ℚ) + 1) * 0.70)
        (((1 - 0.08) - (-1 + 0.08)) / (((3 : ℕ) : ℚ) + 1)) ((10 : ℚ) * 1.5)
        (3 + 2) 0 1 0 3 := rfl
  have hcount : ∀ lv : ℕ, lv ≤ 3 → ((cantorRenderCore 3 10).segs.filter
      (fun s => s.level == lv)).length = 2 ^ lv := by
    intro lv hlv
    obtain ⟨h1, _⟩ := generateCantor_filter_level (-1 + 0.08) (1 - 0.08)
      (1 - 0.08) (((1 - 0.08) - (-1 + 0.08)) / (((3 : ℕ) : ℚ) + 1) * 0.70)
      (((1 - 0.08) - (-1 + 0.08)) / (((3 : ℕ) : ℚ) + 1)) ((10 : ℚ) * 1.5)
      lv 3 (by push_cast; norm_num) hlv (3 + 2) 0 1 0 (Nat.zero_le lv)
      (by omega)
    rw [hsegs]
    simpa using h1
  have hlt : ∀ s ∈ (cantorRenderCore 3 10).segs, s.level < 4 := by
    intro s hs
    rw [hsegs] at hs
    have := generateCantor_level_le (-1 + 0.08) (1 - 0.08) (1 - 0.08)
      (((1 - 0.08) - (-1 + 0.08)) / (((3 : ℕ) : ℚ) + 1) * 0.70)
      (((1 - 0.08) - (-1 + 0.08)) / (((3 : ℕ) : ℚ) + 1)) ((10 : ℚ) * 1.5)
      (3 + 2) 0 1 0 3 s hs
    omega
  have hlen : (cantorRenderCore 3 10).segs.length = 15 := by
    rw [length_eq_sum_filter_levels hlt]
    rw [Finset.sum_congr rfl (fun d hd => hcount d (by
      have := Finset.mem_range.mp hd
      omega))]
    decide
  refine ⟨hlen, hcount, ?_⟩
  have hquads : (cantorRenderCore 3 10).quads =
      ((cantorRenderCore 3 10).segs.map CSeg.verts).flatten := rfl
  rw [hquads, List.length_flatten, List.map_map]
  have hv : ∀ s ∈ (cantorRenderCore 3 10).segs,
      (List.length ∘ CSeg.verts) s = 6 := by
    intro s hs
    rw [hsegs] at hs
    exact generateCantor_verts_len (-1 + 0.08) (1 - 0.08) (1 - 0.08)
      (((1 - 0.08) - (-1 + 0.08)) / (((3 : ℕ) : ℚ) + 1) * 0.70)
      (((1 - 0.08) - (-1 + 0.08)) / (((3 : ℕ) : ℚ) + 1)) ((10 : ℚ) * 1.5)
      (3 + 2) 0 1 0 3 s hs
  rw [nat_map_sum_const (List.length ∘ CSeg.verts) hv, hlen]

theorem generateCantor_opaque_iff (xMin xMax yTop barH gap revealed : ℚ)
    (maxDepth lv : ℕ) :
    ∀ (fuel : ℕ) (left right : ℚ) (level : ℕ), maxDepth + 2 ≤ fuel + level →
      ((∃ s ∈ generateCantor xMin xMax yTop barH gap revealed fuel left right
          level maxDepth, s.level = lv ∧ s.alpha = 1) ↔
        (level ≤ lv ∧ lv ≤ maxDepth ∧ 1 ≤ revealed - (lv : ℚ))) := by
  intro fuel
  induction fuel with
  | zero =>
      intro l r level hf
      simp only [generateCantor]
      constructor
      · rintro ⟨s, hs, _⟩
        simp at hs
      · rintro ⟨ha, hb, _⟩
        omega
  | succ f ih =>
      intro l r level hf
      by_cases h1 : maxDepth < level
      · simp only [generateCantor, if_pos h1]
        constructor
        · rintro ⟨s, hs, _⟩
          simp at hs
        · rintro ⟨ha, hb, _⟩
          omega
      · simp only [generateCantor, if_neg h1]
        by_cases h2 : revealAlpha revealed level ≤ 0
        · rw [if_pos h2]
          rw [revealAlpha_nonpos_iff] at h2
          constructor
          · rintro ⟨s, hs, _⟩
            simp at hs
          · rintro ⟨ha, hb, hc⟩
            exfalso
            have hcast : (level : ℚ) ≤ (lv : ℚ) := by exact_mod_cast ha
            linarith
        · rw [if_neg h2]
          constructor
          · rintro ⟨s, hs, hsl, hsa⟩
            rcases List.mem_cons.mp hs with rfl | hs
            · simp only at hsl hsa
              refine ⟨le_of_eq hsl, by omega, ?_⟩
              rw [← hsl]
              exact (revealAlpha_eq_one_iff _ _).mp hsa
            · rcases List.mem_append.mp hs with hs | hs
              · have hres := (ih _ _ (level + 1) (by omega)).mp ⟨s, hs, hsl, hsa⟩
                exact ⟨by omega, hres.2.1, hres.2.2⟩
              · have hres := (ih _ _ (level + 1) (by omega)).mp ⟨s, hs, hsl, hsa⟩
                exact ⟨by omega, hres.2.1, hres.2.2⟩
          · rintro ⟨ha, hb, hc⟩
            by_cases hlv : level = lv
            · refine ⟨_, List.mem_cons_self _ _, hlv, ?_⟩
              simp only
              rw [revealAlpha_eq_one_iff, hlv]
              exact hc
            · have hstep : level + 1 ≤ lv := by omega
              obtain ⟨s, hs, hsp⟩ := (ih l (l + (r - l) / 3) (level + 1)
                (by omega)).mpr ⟨hstep, hb, hc⟩
              exact ⟨s, List.mem_cons_of_mem _ (List.mem_append_left _ hs), hsp⟩

/-- State of GeometricProgressionVisualizer's pre-scan loop: the current
power `v`, running sum `s`, and the maxima of |term| and |partial sum|. -/
structure GeoScan where
  v : ℚ
  s : ℚ
  mav : ℚ
  mas : ℚ
deriving DecidableEq

/-- The pre-scan loop of GeometricProgressionVisualizer::render. -/
def geoScan (ratio : ℚ) : ℕ → GeoScan
  | 0 => ⟨1, 0, 0, 0⟩
  | k + 1 =>
      let p := geoScan ratio k
      let mav := max p.mav |p.v|
      let s2 := p.s + p.v
      let mas := max p.mas |s2|
      ⟨p.v * ratio, s2, mav, mas⟩

/-- `std::max({maxAbsVal, maxAbsSum, 0.001f})`: the y-scale denominator,
floored at 0.001. -/
def geometricScale (ratio : ℚ) (terms : ℕ) : ℚ :=
  max (max (geoScan ratio terms).mav (geoScan ratio terms).mas) 0.001

/-- The locals of GeometricProgressionVisualizer::render the loop body
reads. -/
structure MidCtx where
  xMin : ℚ
  yMid : ℚ
  yExt : ℚ
  barW : ℚ
  barGap : ℚ
  scale : ℚ
  revealed : ℚ
deriving DecidableEq

/-- Loop accumulator advance: `partialSum += val; ...; val *= ratio`
(accumulator = (val, partialSum)). -/
def geoStep (ratio : ℚ) (_k : ℕ) (a : ℚ × ℚ) : ℚ × ℚ := (a.1 * ratio, a.2 + a.1)

/-- One iteration of the geometric reveal loop; `pre.1` is `val` before
`val *= ratio` (the bar height source), `post.2` is `partialSum` after
`partialSum += val` (the polyline y source). The `if (y1 > y2) std::swap`
becomes the ordered pair `yP`. -/
def geoMk (c : MidCtx) (k : ℕ) (pre post : ℚ × ℚ) : Bar :=
  let alpha := revealAlpha c.revealed k
  let x1 := c.xMin + (k : ℚ) * c.barW + c.barGap
  let x2 := c.xMin + ((k : ℚ) + 1) * c.barW - c.barGap
  let bh := (pre.1 / c.scale) * c.yExt
  let col := if 0 ≤ pre.1 then hsvToRgb 0.38 0.75 0.85 else hsvToRgb 0.00 0.75 0.85
  let yP := if c.yMid + bh < c.yMid then (c.yMid + bh, c.yMid)
            else (c.yMid, c.yMid + bh)
  let sx := c.xMin + ((k : ℚ) + 0.5) * c.barW
  let sy := c.yMid + (post.2 / c.scale) * c.yExt
  { idx := k
    alpha := alpha
    verts := quadVerts x1 yP.1 x2 yP.2 col.1 col.2.1 col.2.2 alpha
    sumPt := ⟨sx, sy, 1.0, 0.85, 0.25, alpha⟩ }

/-- Output of GeometricProgressionVisualizer::render; `limitLine` records
whether the convergence-limit guard fired and with which limit value. -/
structure GeoOut where
  quads : List Vertex
  axes : List Vertex
  sumLine : List Vertex
  bars : List Bar
  partialSum : ℚ
  limitLine : Option ℚ
deriving DecidableEq

/-- GeometricProgressionVisualizer::render with `ratio` and `terms` already
read and clamped. -/
def geometricRenderCore (ratio : ℚ) (terms : ℕ) (time s3 : ℚ) : GeoOut :=
  let xMin : ℚ := -1 + 0.08
  let xMax : ℚ := 1 - 0.08
  let yMid : ℚ := 0
  let yExt : ℚ := 1 - 0.08
  let scale := geometricScale ratio terms
  let barW := (xMax - xMin) / (terms : ℚ)
  let barGap := barW * 0.10
  let revealed := time * 8
  let visI := visibleCount terms revealed
  let c : MidCtx := ⟨xMin, yMid, yExt, barW, barGap, scale, revealed⟩
  let loop := barLoop ((1 : ℚ), (0 : ℚ)) (geoStep ratio) (geoMk c) visI.toNat
  let axesBase : List Vertex :=
    [⟨xMin, yMid, 0.35, 0.35, 0.45, 0.7⟩, ⟨xMax, yMid, 0.35, 0.35, 0.45, 0.7⟩]
  let limit : Option ℚ :=
    if |ratio| < 1 ∧ 1e-6 < |1 - ratio| ∧ (terms : ℤ) ≤ visI
    then some (1 / (1 - ratio)) else none
  let pulse := 0.5 + 0.5 * s3
  let marker : List Vertex :=
    match limit with
    | some l =>
        [⟨xMin, yMid + (l / scale) * yExt, 0.30, 1.0, 0.40, 0.35 + 0.35 * pulse⟩,
         ⟨xMax, yMid + (l / scale) * yExt, 0.30, 1.0, 0.40, 0.35 + 0.35 * pulse⟩]
    | none => []
  ⟨(loop.1.map Bar.verts).flatten, axesBase ++ marker, loop.1.map Bar.sumPt,
    loop.1, loop.2.2, limit⟩

/-- GeometricProgressionVisualizer::render: reads parameters `ratio`
(default 0.70, clamped to -2..2) and `terms` (default 15, clamped to
1..50). -/
def geometricRender (ratioParam termsParam time s3 : ℚ) : GeoOut :=
  geometricRenderCore (clampQ ratioParam (-2) 2)
    (clampZ (truncQ termsParam) 1 50).toNat time s3

theorem geo_loop_spec (ratio : ℚ) (c : MidCtx) (n : ℕ) :
    (barLoop ((1 : ℚ), (0 : ℚ)) (geoStep ratio) (geoMk c) n).2 =
      (ratio ^ n, ∑ k ∈ Finset.range n, ratio ^ k) := by
  induction n with
  | zero => simp [barLoop]
  | succ n ih =>
      rw [barLoop_snd_succ, ih]
      simp [geoStep, pow_succ, Finset.sum_range_succ]

/-- C3: with ratio 0.5 and terms 10, once all terms are revealed the running
partial sum is exactly 1.998046875 (the sum of 0.5^0 .. 0.5^9) and the
convergence line is drawn at the value 1/(1-ratio) = 2; and for any ratio
parameter, the limit marker is drawn only when |ratio| < 1. -/
theorem geometric_example_and_marker_guard :
    (∀ s3 : ℚ, (geometricRender 0.5 ((10 : ℕ) : ℚ) 2 s3).partialSum =
        1.998046875 ∧
      (geometricRender 0.5 ((10 : ℕ) : ℚ) 2 s3).limitLine = some 2) ∧
    (∀ r p t s3 : ℚ, (geometricRender r p t s3).limitLine ≠ none → |r| < 1) := by
  constructor
  · intro s3
    have hr : clampQ 0.5 (-2) 2 = 0.5 := clampQ_eq_self (by norm_num) (by norm_num)
    have hterms : (clampZ (truncQ ((10 : ℕ) : ℚ)) 1 50).toNat = 10 := by
      rw [truncQ_natCast]
      unfold clampZ
      omega
    have hvis : visibleCount 10 ((2 : ℚ) * 8) = 10 :=
      visibleCount_eq_terms 10 (by push_cast; norm_num)
    unfold geometricRender
    rw [hr, hterms]
    constructor
    · show (barLoop ((1 : ℚ), (0 : ℚ)) (geoStep 0.5) (geoMk _)
        (visibleCount 10 ((2 : ℚ) * 8)).toNat).2.2 = 1.998046875
      rw [hvis]
      rw [show ((10 : ℤ)).toNat = 10 from rfl]
      rw [geo_loop_spec]
      simp [Finset.sum_range_succ]
      norm_num
    · show (if |(0.5 : ℚ)| < 1 ∧ 1e-6 < |1 - (0.5 : ℚ)| ∧
          ((10 : ℕ) : ℤ) ≤ visibleCount 10 ((2 : ℚ) * 8)
        then some (1 / (1 - (0.5 : ℚ))) else none) = some 2
      rw [if_pos]
      · norm_num
      · refine ⟨by rw [abs_of_pos] <;> norm_num, by rw [show |1 - (0.5 : ℚ)| = 0.5 from by rw [abs_of_pos] <;> norm_num]; norm_num, ?_⟩
        rw [hvis]
        norm_num
  · intro r p t s3 h
    have hcond : |clampQ r (-2) 2| < 1 := by
      by_contra hc
      apply h
      show (if |clampQ r (-2) 2| < 1 ∧ _ ∧ _ then _ else none) = none
      rw [if_neg]
      rintro ⟨h1, _, _⟩
      exact hc h1
    rcases le_or_lt r (-2) with hle | hgt
    · exfalso
      have hcl : clampQ r (-2) 2 = -2 := by
        unfold clampQ
        rw [max_eq_right hle]
        norm_num
      rw [hcl] at hcond
      norm_num at hcond
    · rcases le_or_lt 2 r with hge | hlt2
      · exfalso
        have hcl : clampQ r (-2) 2 = 2 := by
          unfold clampQ
          rw [min_eq_right]
          exact le_trans hge (le_max_left r (-2))
        rw [hcl] at hcond
        norm_num at hcond
      · rwa [clampQ_eq_self (le_of_lt hgt) (le_of_lt hlt2)] at hcond

/-- BaselProblemVisualizer: `partialSum += 1/(n*n)` at 0-based `k = n - 1`. -/
def baselStep (k : ℕ) (psum : ℚ) : ℚ :=
  psum + 1 / (((k : ℚ) + 1) * ((k : ℚ) + 1))

/-- One iteration of the Basel reveal loop, 0-based (`n = idx + 1`). -/
def baselMk (c : BarsCtx) (k : ℕ) (_pre post : ℚ) : Bar :=
  let term := 1 / (((k : ℚ) + 1) * ((k : ℚ) + 1))
  let alpha := revealAlpha c.revealed k
  let x1 := c.xMin + (k : ℚ) * c.barW + c.barGap
  let x2 := c.xMin + ((k : ℚ) + 1) * c.barW - c.barGap
  let yB := c.yMin + (term / c.yScale) * (c.yMax - c.yMin)
  let hue := 0.55 - 0.08 * (k : ℚ) / ((max (c.terms - 1) 1 : ℕ) : ℚ)
  let col := hsvToRgb hue 0.65 0.70
  let sx := c.xMin + (((k : ℚ) + 1) - 0.5) * c.barW
  let sy := c.yMin + (post / c.yScale) * (c.yMax - c.yMin)
  { idx := k
    alpha := alpha
    verts := quadVerts x1 c.yMin x2 yB col.1 col.2.1 col.2.2 (alpha * 0.85)
    sumPt := ⟨sx, sy, 0.20, 0.10, 0.60, alpha⟩ }

/-- BaselProblemVisualizer::render with `terms` already read and clamped. -/
def baselRenderCore (terms : ℕ) (time s3 : ℚ) : SeriesOut :=
  let xMin : ℚ := -1 + 0.14
  let xMax : ℚ := 1 - 0.06
  let yMin : ℚ := -1 + 0.12
  let yMax : ℚ := 1 - 0.08
  let lim : ℚ := 1.6449340668
  let yScale := lim * 1.15
  let barW := (xMax - xMin) / (terms : ℚ)
  let barGap := barW * 0.12
  let revealed := time * 10
  let visI := visibleCount terms revealed
  let gstep : ℚ := if yScale > 4 then 1 else 0.5
  let grid := (tickVals gstep yScale).flatMap (fun v =>
    [⟨xMin, yMin + (v / yScale) * (yMax - yMin), 0.78, 0.76, 0.74, 0.25⟩,
     ⟨xMax, yMin + (v / yScale) * (yMax - yMin), 0.78, 0.76, 0.74, 0.25⟩])
  let c : BarsCtx := ⟨xMin, yMin, yMax, barW, barGap, yScale, revealed, terms⟩
  let loop := barLoop 0 baselStep (baselMk c) visI.toNat
  let axesBase : List Vertex :=
    [⟨xMin, yMin, 0.30, 0.28, 0.26, 0.8⟩, ⟨xMax, yMin, 0.30, 0.28, 0.26, 0.8⟩,
     ⟨xMin, yMin, 0.30, 0.28, 0.26, 0.8⟩, ⟨xMin, yMax, 0.30, 0.28, 0.26, 0.8⟩]
  let ticks := (tickVals gstep yScale).flatMap (fun v =>
    [⟨xMin - 0.015, yMin + (v / yScale) * (yMax - yMin), 0.30, 0.28, 0.26, 0.7⟩,
     ⟨xMin + 0.01, yMin + (v / yScale) * (yMax - yMin), 0.30, 0.28, 0.26, 0.7⟩])
  let pulse := 0.5 + 0.5 * s3
  let marker : List Vertex :=
    if (terms : ℤ) ≤ visI then
      [⟨xMin, yMin + (lim / yScale) * (yMax - yMin), 0.15, 0.60, 0.15, 0.4 + 0.4 * pulse⟩,
       ⟨xMax, yMin + (lim / yScale) * (yMax - yMin), 0.15, 0.60, 0.15, 0.4 + 0.4 * pulse⟩]
    else []
  ⟨grid, (loop.1.map Bar.verts).flatten, axesBase ++ ticks ++ marker,
    loop.1.map Bar.sumPt, loop.1, loop.2⟩

/-- BaselProblemVisualizer::render: parameter `terms` (default 40) clamped
to 1..2000. -/
def baselRender (termsParam time s3 : ℚ) : SeriesOut :=
  baselRenderCore (clampZ (truncQ termsParam) 1 2000).toNat time s3

/-- ESeriesVisualizer: accumulator = (factorial, partialSum);
`if (n > 0) factorial *= n; term = 1/factorial; partialSum += term`. -/
def eStep (k : ℕ) (a : ℚ × ℚ) : ℚ × ℚ :=
  let f2 := if 0 < k then a.1 * (k : ℚ) else a.1
  (f2, a.2 + 1 / f2)

/-- One iteration of the e-series reveal loop (0-based `n` as in the
source); `post.1` is the factorial after the update, `post.2` the updated
partial sum. -/
def eMk (c : BarsCtx) (k : ℕ) (_pre post : ℚ × ℚ) : Bar :=
  let term := 1 / post.1
  let alpha := revealAlpha c.revealed k
  let x1 := c.xMin + (k : ℚ) * c.barW + c.barGap
  let x2 := c.xMin + ((k : ℚ) + 1) * c.barW - c.barGap
  let yB := c.yMin + (term / c.yScale) * (c.yMax - c.yMin)
  let hue := 0.12 - 0.06 * (k : ℚ) / ((max (c.terms - 1) 1 : ℕ) : ℚ)
  let col := hsvToRgb hue 0.70 0.75
  let sx := c.xMin + ((k : ℚ) + 0.5) * c.barW
  let sy := c.yMin + (post.2 / c.yScale) * (c.yMax - c.yMin)
  { idx := k
    alpha := alpha
    verts := quadVerts x1 c.yMin x2 yB col.1 col.2.1 col.2.2 (alpha * 0.85)
    sumPt := ⟨sx, sy, 0.10, 0.25, 0.65, alpha⟩ }

/-- ESeriesVisualizer::render with `terms` already read and clamped. -/
def eSeriesRenderCore (terms : ℕ) (time s3 : ℚ) : SeriesOut :=
  let xMin : ℚ := -1 + 0.14
  let xMax : ℚ := 1 - 0.06
  let yMin : ℚ := -1 + 0.12
  let yMax : ℚ := 1 - 0.08
  let lim : ℚ := 2.71828182845
  let yScale := lim * 1.12
  let barW := (xMax - xMin) / (terms : ℚ)
  let barGap := barW * 0.12
  let revealed := time * 4
  let visI := visibleCount terms revealed
  let gstep : ℚ := 0.5
  let grid := (tickVals gstep yScale).flatMap (fun v =>
    [⟨xMin, yMin + (v / yScale) * (yMax - yMin), 0.78, 0.76, 0.74, 0.25⟩,
     ⟨xMax, yMin + (v / yScale) * (yMax - yMin), 0.78, 0.76, 0.74, 0.25⟩])
  let c : BarsCtx := ⟨xMin, yMin, yMax, barW, barGap, yScale, revealed, terms⟩
  let loop := barLoop ((1 : ℚ), (0 : ℚ)) eStep (eMk c) visI.toNat
  let axesBase : List Vertex :=
    [⟨xMin, yMin, 0.30, 0.28, 0.26, 0.8⟩, ⟨xMax, yMin, 0.30, 0.28, 0.26, 0.8⟩,
     ⟨xMin, yMin, 0.30, 0.28, 0.26, 0.8⟩, ⟨xMin, yMax, 0.30, 0.28, 0.26, 0.8⟩]
  let ticks := (tickVals gstep yScale).flatMap (fun v =>
    [⟨xMin - 0.015, yMin + (v / yScale) * (yMax - yMin), 0.30, 0.28, 0.26, 0.7⟩,
     ⟨xMin + 0.01, yMin + (v / yScale) * (yMax - yMin), 0.30, 0.28, 0.26, 0.7⟩])
  let pulse := 0.5 + 0.5 * s3
  let marker : List Vertex :=
    if (terms : ℤ) ≤ visI then
      [⟨xMin, yMin + (lim / yScale) * (yMax - yMin), 0.15, 0.60, 0.15, 0.4 + 0.4 * pulse⟩,
       ⟨xMax, yMin + (lim / yScale) * (yMax - yMin), 0.15, 0.60, 0.15, 0.4 + 0.4 * pulse⟩]
    else []
  ⟨grid, (loop.1.map Bar.verts).flatten, axesBase ++ ticks ++ marker,
    loop.1.map Bar.sumPt, loop.1, loop.2.2⟩

/-- ESeriesVisualizer::render: parameter `terms` (default 12) clamped to
1..25. -/
def eSeriesRender (termsParam time s3 : ℚ) : SeriesOut :=
  eSeriesRenderCore (clampZ (truncQ termsParam) 1 25).toNat time s3

/-- AperyConstantVisualizer: `partialSum += 1/(n*n*n)` at 0-based
`k = n - 1`. -/
def aperyStep (k : ℕ) (psum : ℚ) : ℚ :=
  psum + 1 / (((k : ℚ) + 1) * ((k : ℚ) + 1) * ((k : ℚ) + 1))

/-- One iteration of the Apéry reveal loop, 0-based (`n = idx + 1`). -/
def aperyMk (c : BarsCtx) (k : ℕ) (_pre post : ℚ) : Bar :=
  let term := 1 / (((k : ℚ) + 1) * ((k : ℚ) + 1) * ((k : ℚ) + 1))
  let alpha := revealAlpha c.revealed k
  let x1 := c.xMin + (k : ℚ) * c.barW + c.barGap
  let x2 := c.xMin + ((k : ℚ) + 1) * c.barW - c.barGap
  let yB := c.yMin + (term / c.yScale) * (c.yMax - c.yMin)
  let hue := 0.90 - 0.06 * (k : ℚ) / ((max (c.terms - 1) 1 : ℕ) : ℚ)
  let col := hsvToRgb hue 0.60 0.70
  let sx := c.xMin + (((k : ℚ) + 1) - 0.5) * c.barW
  let sy := c.yMin + (post / c.yScale) * (c.yMax - c.yMin)
  { idx := k
    alpha := alpha
    verts := quadVerts x1 c.yMin x2 yB col.1 col.2.1 col.2.2 (alpha * 0.85)
    sumPt := ⟨sx, sy, 0.10, 0.45, 0.50, alpha⟩ }

/-- AperyConstantVisualizer::render with `terms` already read and clamped. -/
def aperyRenderCore (terms : ℕ) (time s3 : ℚ) : SeriesOut :=
  let xMin : ℚ := -1 + 0.14
  let xMax : ℚ := 1 - 0.06
  let yMin : ℚ := -1 + 0.12
  let yMax : ℚ := 1 - 0.08
  let lim : ℚ := 1.20205690
  let yScale := lim * 1.15
  let barW := (xMax - xMin) / (terms : ℚ)
  let barGap := barW * 0.12
  let revealed := time * 10
  let visI := visibleCount terms revealed
  let gstep : ℚ := 0.25
  let grid := (tickVals gstep yScale).flatMap (fun v =>
    [⟨xMin, yMin + (v / yScale) * (yMax - yMin), 0.78, 0.76, 0.74, 0.25⟩,
     ⟨xMax, yMin + (v / yScale) * (yMax - yMin), 0.78, 0.76, 0.74, 0.25⟩])
  let c : BarsCtx := ⟨xMin, yMin, yMax, barW, barGap, yScale, revealed, terms⟩
  let loop := barLoop 0 aperyStep (aperyMk c) visI.toNat
  let axesBase : List Vertex :=
    [⟨xMin, yMin, 0.30, 0.28, 0.26, 0.8⟩, ⟨xMax, yMin, 0.30, 0.28, 0.26, 0.8⟩,
     ⟨xMin, yMin, 0.30, 0.28, 0.26, 0.8⟩, ⟨xMin, yMax, 0.30, 0.28, 0.26, 0.8⟩]
  let ticks := (tickVals gstep yScale).flatMap (fun v =>
    [⟨xMin - 0.015, yMin + (v / yScale) * (yMax - yMin), 0.30, 0.28, 0.26, 0.7⟩,
     ⟨xMin + 0.01, yMin + (v / yScale) * (yMax - yMin), 0.30, 0.28, 0.26, 0.7⟩])
  let pulse := 0.5 + 0.5 * s3
  let marker : List Vertex :=
    if (terms : ℤ) ≤ visI then
      [⟨xMin, yMin + (lim / yScale) * (yMax - yMin), 0.15, 0.60, 0.15, 0.4 + 0.4 * pulse⟩,
       ⟨xMax, yMin + (lim / yScale) * (yMax - yMin), 0.15, 0.60, 0.15, 0.4 + 0.4 * pulse⟩]
    else []
  ⟨grid, (loop.1.map Bar.verts).flatten, axesBase ++ ticks ++ marker,
    loop.1.map Bar.sumPt, loop.1, loop.2⟩

/-- AperyConstantVisualizer::render: parameter `terms` (default 30) clamped
to 1..200. -/
def aperyRender (termsParam time s3 : ℚ) : SeriesOut :=
  aperyRenderCore (clampZ (truncQ termsParam) 1 200).toNat time s3

/-- State of AlternatingHarmonicVisualizer's pre-scan loop: running sum and
the maxima of |term| and |partial sum|. -/
structure AltScan where
  s : ℚ
  mav : ℚ
  mas : ℚ
deriving DecidableEq

/-- The pre-scan loop of AlternatingHarmonicVisualizer::render, 0-based
(`n = k + 1`; `sign = (n % 2 == 1) ? 1 : -1`). -/
def altScan : ℕ → AltScan
  | 0 => ⟨0, 0, 0⟩
  | k + 1 =>
      let p := altScan k
      let sign : ℚ := if (k + 1) % 2 = 1 then 1 else -1
      let term := sign / ((k : ℚ) + 1)
      let mav := max p.mav |term|
      let s2 := p.s + term
      ⟨s2, mav, max p.mas |s2|⟩

/-- `std::max({maxAbsVal, maxAbsSum, 0.001f})` for the alternating
harmonic variant. -/
def altScale (terms : ℕ) : ℚ :=
  max (max (altScan terms).mav (altScan terms).mas) 0.001

/-- `std::floor(std::log10 q)` for a positive rational `q`: the exponent of
the decade containing `q` (the value is irrelevant for `q ≤ 0`, which no
caller produces since the argument is floored at 0.01). -/
def floorLog10 (q : ℚ) : ℤ :=
  if 1 ≤ q then (Nat.log 10 ⌊q⌋.toNat : ℤ)
  else -(Nat.clog 10 ⌈1 / q⌉.toNat : ℤ)

/-- The "nice" gridline spacing of AlternatingHarmonicVisualizer::render:
`step = scale/4`, floored at 0.01, rounded up to a multiple of its decade
(`mag = pow(10, floor(log10 step)); step = ceil(step/mag)*mag`). -/
def altGridStep (scale : ℚ) : ℚ :=
  let step0 := scale / 4
  let step1 := if step0 < 0.01 then 0.01 else step0
  let mag : ℚ := (10 : ℚ) ^ floorLog10 step1
  (⌈step1 / mag⌉ : ℚ) * mag

/-- AlternatingHarmonicVisualizer: `partialSum += sign/n` at 0-based
`k = n - 1`. -/
def altStep (k : ℕ) (psum : ℚ) : ℚ :=
  psum + (if (k + 1) % 2 = 1 then (1 : ℚ) else -1) / ((k : ℚ) + 1)

/-- One iteration of the alternating-harmonic reveal loop, 0-based
(`n = idx + 1`); the `if (y1 > y2) std::swap` becomes the ordered pair. -/
def altMk (c : MidCtx) (k : ℕ) (_pre post : ℚ) : Bar :=
  let sign : ℚ := if (k + 1) % 2 = 1 then 1 else -1
  let term := sign / ((k : ℚ) + 1)
  let alpha := revealAlpha c.revealed k
  let x1 := c.xMin + (k : ℚ) * c.barW + c.barGap
  let x2 := c.xMin + ((k : ℚ) + 1) * c.barW - c.barGap
  let bh := (term / c.scale) * c.yExt
  let col := if 0 ≤ term then hsvToRgb 0.52 0.65 0.65 else hsvToRgb 0.02 0.65 0.70
  let yP := if c.yMid + bh < c.yMid then (c.yMid + bh, c.yMid)
            else (c.yMid, c.yMid + bh)
  let sx := c.xMin + (((k : ℚ) + 1) - 0.5) * c.barW
  let sy := c.yMid + (post / c.scale) * c.yExt
  { idx := k
    alpha := alpha
    verts := quadVerts x1 yP.1 x2 yP.2 col.1 col.2.1 col.2.2 (alpha * 0.85)
    sumPt := ⟨sx, sy, 0.80, 0.50, 0.05, alpha⟩ }

/-- Output of the centered-bar variants (alternating harmonic and the two
spec-modelled variants): draw lists plus per-term records, the final
`partialSum`, and whether the convergence marker was emitted. -/
structure MidOut where
  grid : List Vertex
  quads : List Vertex
  axes : List Vertex
  sumLine : List Vertex
  bars : List Bar
  partialSum : ℚ
  limitDrawn : Bool
deriving DecidableEq

/-- AlternatingHarmonicVisualizer::render with `terms` already read and
clamped. -/
def altRenderCore (terms : ℕ) (time s3 : ℚ) : MidOut :=
  let xMin : ℚ := -1 + 0.14
  let xMax : ℚ := 1 - 0.06
  let yMid : ℚ := 0
  let yExt : ℚ := 1 - max 0.08 0.12
  let lim : ℚ := 0.69314718
  let scale := altScale terms
  let barW := (xMax - xMin) / (terms : ℚ)
  let barGap := barW * 0.10
  let revealed := time * 8
  let visI := visibleCount terms revealed
  let gstep := altGridStep scale
  let grid := (tickVals gstep scale).flatMap (fun v =>
    [⟨xMin, yMid + (v / scale) * yExt, 0.78, 0.76, 0.74, 0.25⟩,
     ⟨xMax, yMid + (v / scale) * yExt, 0.78, 0.76, 0.74, 0.25⟩,
     ⟨xMin, yMid - (v / scale) * yExt, 0.78, 0.76, 0.74, 0.25⟩,
     ⟨xMax, yMid - (v / scale) * yExt, 0.78, 0.76, 0.74, 0.25⟩])
  let c : MidCtx := ⟨xMin, yMid, yExt, barW, barGap, scale, revealed⟩
  let loop := barLoop 0 altStep (altMk c) visI.toNat
  let axesBase : List Vertex :=
    [⟨xMin, yMid, 0.30, 0.28, 0.26, 0.8⟩, ⟨xMax, yMid, 0.30, 0.28, 0.26, 0.8⟩,
     ⟨xMin, yMid - yExt, 0.30, 0.28, 0.26, 0.8⟩,
     ⟨xMin, yMid + yExt, 0.30, 0.28, 0.26, 0.8⟩]
  let pulse := 0.5 + 0.5 * s3
  let marker : List Vertex :=
    if (terms : ℤ) ≤ visI then
      [⟨xMin, yMid + (lim / scale) * yExt, 0.15, 0.60, 0.15, 0.4 + 0.4 * pulse⟩,
       ⟨xMax, yMid + (lim / scale) * yExt, 0.15, 0.60, 0.15, 0.4 + 0.4 * pulse⟩]
    else []
  ⟨grid, (loop.1.map Bar.verts).flatten, axesBase ++ marker,
    loop.1.map Bar.sumPt, loop.1, loop.2, decide ((terms : ℤ) ≤ visI)⟩

/-- AlternatingHarmonicVisualizer::render: parameter `terms` (default 30)
clamped to 1..2000. -/
def altRender (termsParam time s3 : ℚ) : MidOut :=
  altRenderCore (clampZ (truncQ termsParam) 1 2000).toNat time s3

/-- LogisticMapVisualizer: the iterated map `x = r*x*(1-x)` from
`x0 = 0.5`. -/
def logisticIter (r : ℚ) : ℕ → ℚ
  | 0 => 0.5
  | n + 1 =>
      let x := logisticIter r n
      r * x * (1 - x)

/-- Output of LogisticMapVisualizer::render. -/
structure LogOut where
  points : List Vertex
  axes : List Vertex
deriving DecidableEq

/-- LogisticMapVisualizer::render (the `margin = 0.08` variant) with
`growth_rate` already read and clamped; `warmup = 300` discarded iterations,
then 120 plotted samples per column (plot sample `i` is iterate
`300 + i + 1`, since the map is advanced before each plot). -/
def logisticRenderCore (rMax width time : ℚ) : LogOut :=
  let rMin : ℚ := 1
  let xMin : ℚ := -1 + 0.08
  let xMax : ℚ := 1 - 0.08
  let yMin : ℚ := -1 + 0.08
  let yMax : ℚ := 1 - 0.08
  let cols := (clampZ (truncQ (width * 0.7)) 200 1400).toNat
  let revealFrac := clampQ (time * 0.5) 0 1
  let visCols := (max 1 (truncQ ((cols : ℚ) * revealFrac))).toNat
  let points := (List.range visCols).flatMap (fun col =>
    let t := (col : ℚ) / ((cols : ℚ) - 1)
    let r := rMin + (rMax - rMin) * t
    let clipX := xMin + (xMax - xMin) * t
    (List.range 120).map (fun i =>
      let x := logisticIter r (300 + i + 1)
      let clipY := yMin + (yMax - yMin) * x
      let col2 := hsvToRgb (0.50 + 0.30 * t) 0.70 0.92
      (⟨clipX, clipY, col2.1, col2.2.1, col2.2.2, 0.55⟩ : Vertex)))
  let axesBase : List Vertex :=
    [⟨xMin, yMin, 0.30, 0.30, 0.40, 0.6⟩, ⟨xMax, yMin, 0.30, 0.30, 0.40, 0.6⟩,
     ⟨xMin, yMin, 0.30, 0.30, 0.40, 0.6⟩, ⟨xMin, yMax, 0.30, 0.30, 0.40, 0.6⟩]
  let marker : List Vertex :=
    if 3.57 < rMax then
      [⟨xMin + (xMax - xMin) * ((3.57 - rMin) / (rMax - rMin)), yMin,
          0.9, 0.3, 0.3, 0.4⟩,
       ⟨xMin + (xMax - xMin) * ((3.57 - rMin) / (rMax - rMin)), yMax,
          0.9, 0.3, 0.3, 0.4⟩]
    else []
  ⟨points, axesBase ++ marker⟩

/-- LogisticMapVisualizer::render: parameter `growth_rate` (default 4)
clamped to 1..4. -/
def logisticRender (growthParam width time : ℚ) : LogOut :=
  logisticRenderCore (clampQ growthParam 1 4) width time

/-- Modelled from the spec: GregoryLeibnizVisualizer.h is missing from the
sources (only its registration under key "gregory_leibniz" in SeriesManager
appears); this follows the shared algorithmic shape of section 4.2 for the
Gregory-Leibniz series, in the centered-bars layout: pre-scan of the maxima
of |term| and |partial sum| with the 0.001 floor. Term at 0-based k is
(-1)^k / (2k+1). -/
def gregScan : ℕ → AltScan
  | 0 => ⟨0, 0, 0⟩
  | k + 1 =>
      let p := gregScan k
      let sign : ℚ := if k % 2 = 0 then 1 else -1
      let term := sign / (2 * (k : ℚ) + 1)
      let mav := max p.mav |term|
      let s2 := p.s + term
      ⟨s2, mav, max p.mas |s2|⟩

/-- Modelled from the spec (see `gregScan`): the epsilon-floored scale. -/
def gregScale (terms : ℕ) : ℚ :=
  max (max (gregScan terms).mav (gregScan terms).mas) 0.001

/-- Modelled from the spec (see `gregScan`): the running-sum advance. -/
def gregStep (k : ℕ) (psum : ℚ) : ℚ :=
  psum + (if k % 2 = 0 then (1 : ℚ) else -1) / (2 * (k : ℚ) + 1)

/-- Modelled from the spec (see `gregScan`): one reveal-loop iteration,
with the standard fade-in alpha and swap-ordered centered bars. -/
def gregMk (c : MidCtx) (k : ℕ) (_pre post : ℚ) : Bar :=
  let sign : ℚ := if k % 2 = 0 then 1 else -1
  let term := sign / (2 * (k : ℚ) + 1)
  let alpha := revealAlpha c.revealed k
  let x1 := c.xMin + (k : ℚ) * c.barW + c.barGap
  let x2 := c.xMin + ((k : ℚ) + 1) * c.barW - c.barGap
  let bh := (term / c.scale) * c.yExt
  let col := if 0 ≤ term then hsvToRgb 0.52 0.65 0.65 else hsvToRgb 0.02 0.65 0.70
  let yP := if c.yMid + bh < c.yMid then (c.yMid + bh, c.yMid)
            else (c.yMid, c.yMid + bh)
  let sx := c.xMin + ((k : ℚ) + 0.5) * c.barW
  let sy := c.yMid + (post / c.scale) * c.yExt
  { idx := k
    alpha := alpha
    verts := quadVerts x1 yP.1 x2 yP.2 col.1 col.2.1 col.2.2 alpha
    sumPt := ⟨sx, sy, 0.80, 0.50, 0.05, alpha⟩ }

/-- Modelled from the spec (see `gregScan`): the render body, margin-based
layout (the spec's section 9 leaves the layout convention open; this model
draws no gridlines), terms clamped 1..2000, reveal rate 8/s, pulsing limit
marker at pi/4 (0.7853981634) once all terms are revealed. -/
def gregoryRenderCore (terms : ℕ) (time s3 : ℚ) : MidOut :=
  let xMin : ℚ := -1 + 0.08
  let xMax : ℚ := 1 - 0.08
  let yMid : ℚ := 0
  let yExt : ℚ := 1 - 0.08
  let lim : ℚ := 0.7853981634
  let scale := gregScale terms
  let barW := (xMax - xMin) / (terms : ℚ)
  let barGap := barW * 0.10
  let revealed := time * 8
  let visI := visibleCount terms revealed
  let c : MidCtx := ⟨xMin, yMid, yExt, barW, barGap, scale, revealed⟩
  let loop := barLoop 0 gregStep (gregMk c) visI.toNat
  let axesBase : List Vertex :=
    [⟨xMin, yMid, 0.30, 0.28, 0.26, 0.8⟩, ⟨xMax, yMid, 0.30, 0.28, 0.26, 0.8⟩]
  let pulse := 0.5 + 0.5 * s3
  let marker : List Vertex :=
    if (terms : ℤ) ≤ visI then
      [⟨xMin, yMid + (lim / scale) * yExt, 0.15, 0.60, 0.15, 0.4 + 0.4 * pulse⟩,
       ⟨xMax, yMid + (lim / scale) * yExt, 0.15, 0.60, 0.15, 0.4 + 0.4 * pulse⟩]
    else []
  ⟨[], (loop.1.map Bar.verts).flatten, axesBase ++ marker,
    loop.1.map Bar.sumPt, loop.1, loop.2, decide ((terms : ℤ) ≤ visI)⟩

/-- Modelled from the spec (see `gregScan`): parameter read plus clamp. -/
def gregoryRender (termsParam time s3 : ℚ) : MidOut :=
  gregoryRenderCore (clampZ (truncQ termsParam) 1 2000).toNat time s3

/-- Modelled from the spec: InverseGeometricVisualizer.h is missing from the
sources (only its registration under key "inv_geometric" in SeriesManager
appears); modelled as the geometric-series layout applied to the inverse
ratio 1/ratio, the divisor's magnitude floored at 0.001 first (section
4.2's edge-case policy: scale denominators are floored to a small positive
epsilon before division). -/
def invEffRatio (ratio : ℚ) : ℚ := if |ratio| < 0.001 then 0.001 else ratio

/-- Modelled from the spec (see `invEffRatio`): parameters `ratio` (clamped
-2..2) and `terms` (clamped 1..50), then the geometric render body run on
1/ratio. -/
def invGeometricRender (ratioParam termsParam time s3 : ℚ) : GeoOut :=
  geometricRenderCore (1 / invEffRatio (clampQ ratioParam (-2) 2))
    (clampZ (truncQ termsParam) 1 50).toNat time s3

/-- ISeriesVisualizer::setParam on the parameter store
(`std::unordered_map<std::string, float>`, modelled as an association list
with unique keys): overwrite an existing entry or insert the name. -/
def setParamStore : List (String × ℚ) → String → ℚ → List (String × ℚ)
  | [], n, v => [(n, v)]
  | (k, w) :: rest, n, v =>
      if k = n then (k, v) :: rest else (k, w) :: setParamStore rest n v

/-- ISeriesVisualizer::getParam: find with a caller-supplied default. -/
def getParamStore (st : List (String × ℚ)) (n : String) (d : ℚ) : ℚ :=
  match st.lookup n with
  | some v => v
  | none => d

/-- A sequence of setParam calls applied in order. -/
def applyWrites (st : List (String × ℚ)) : List (String × ℚ) → List (String × ℚ)
  | [] => st
  | (n, v) :: rest => applyWrites (setParamStore st n v) rest

theorem lookup_cons_of_ne {β : Type} (k name : String) (w : β)
    (rest : List (String × β)) (hne : (name == k) = false) :
    List.lookup name ((k, w) :: rest) = List.lookup name rest := by
  simp [List.lookup, hne]

theorem lookup_cons_of_eq {β : Type} (k : String) (w : β)
    (rest : List (String × β)) :
    List.lookup k ((k, w) :: rest) = some w := by
  simp [List.lookup]

theorem getParamStore_setParamStore (name : String) (v d : ℚ) :
    ∀ st : List (String × ℚ),
      getParamStore (setParamStore st name v) name d = v := by
  intro st
  induction st with
  | nil => simp [setParamStore, getParamStore, List.lookup]
  | cons e rest ih =>
      obtain ⟨k, w⟩ := e
      by_cases hk : k = name
      · subst hk
        simp [setParamStore, getParamStore, List.lookup]
      · have hbeq : (name == k) = false := by
          simp only [beq_eq_false_iff_ne]
          exact fun hc => hk hc.symm
        rw [show setParamStore ((k, w) :: rest) name v =
            (k, w) :: setParamStore rest name v from by
          simp [setParamStore, hk]]
        unfold getParamStore at ih ⊢
        rw [lookup_cons_of_ne k name w _ hbeq]
        exact ih

theorem lookup_setParamStore_ne (k name : String) (v : ℚ) (hk : k ≠ name) :
    ∀ st : List (String × ℚ),
      (setParamStore st k v).lookup name = st.lookup name := by
  have hbeq : (name == k) = false := by
    simp only [beq_eq_false_iff_ne]
    exact fun hc => hk hc.symm
  intro st
  induction st with
  | nil => simp [setParamStore, List.lookup, hbeq]
  | cons e rest ih =>
      obtain ⟨k2, w⟩ := e
      by_cases h2 : k2 = k
      · subst h2
        rw [show setParamStore ((k2, w) :: rest) k2 v = (k2, v) :: rest from by
          simp [setParamStore]]
        rw [lookup_cons_of_ne k2 name v rest hbeq,
          lookup_cons_of_ne k2 name w rest hbeq]
      · rw [show setParamStore ((k2, w) :: rest) k v =
            (k2, w) :: setParamStore rest k v from by simp [setParamStore, h2]]
        by_cases h3 : (name == k2) = false
        · rw [lookup_cons_of_ne k2 name w _ h3, lookup_cons_of_ne k2 name w _ h3]
          exact ih
        · have h4 : name = k2 := by
            rcases Bool.eq_false_or_eq_true (name == k2) with hb | hb
            · exact eq_of_beq hb
            · exact absurd hb h3
          subst h4
          rw [lookup_cons_of_eq, lookup_cons_of_eq]

theorem lookup_applyWrites_not_written (name : String) :
    ∀ (writes : List (String × ℚ)) (st : List (String × ℚ)),
      name ∉ writes.map Prod.fst →
      (applyWrites st writes).lookup name = st.lookup name := by
  intro writes
  induction writes with
  | nil =>
      intro st _
      rfl
  | cons e rest ih =>
      obtain ⟨n, v⟩ := e
      intro st hmem
      simp only [List.map_cons, List.mem_cons] at hmem
      push_neg at hmem
      rw [show applyWrites st ((n, v) :: rest) =
          applyWrites (setParamStore st n v) rest from rfl]
      rw [ih _ hmem.2, lookup_setParamStore_ne n name v (fun hc => hmem.1 hc.symm)]

/-- C9: writing any name (present or not) makes getParam return the written
value; a name never written since construction reads back the
caller-supplied default. -/
theorem param_store_get_set :
    (∀ (st : List (String × ℚ)) (name : String) (v d : ℚ),
        getParamStore (setParamStore st name v) name d = v) ∧
      (∀ (writes : List (String × ℚ)) (name : String) (d : ℚ),
        name ∉ writes.map Prod.fst →
          getParamStore (applyWrites [] writes) name d = d) := by
  constructor
  · intro st name v d
    exact getParamStore_setParamStore name v d st
  · intro writes name d hmem
    unfold getParamStore
    rw [lookup_applyWrites_not_written name writes [] hmem]
    rfl

/-- The WebGL environment a SeriesManager call interacts with, abstracted
to the outcomes steering its control flow: the handle
`emscripten_webgl_create_context` returns (failure when <= 0) and whether
each shader compiles and the program links. -/
structure GLEnv where
  ctxHandle : ℤ
  vsOk : Bool
  fsOk : Bool
  linkOk : Bool
deriving DecidableEq

/-- GLRenderer::compileShader: the returned handle (0 on failure) and what
it prints to the diagnostic channel - only a compile failure logs. -/
def compileShader (ok : Bool) : ℕ × List String :=
  if ok then (1, []) else (0, ["Shader compile error"])

/-- GLRenderer::init as (return value, `initialized_` flag, diagnostic
output): compile both shaders, fail if either handle is 0; then fail on
link failure - with no log line for it; only on full success set
`initialized_`. -/
def rendererInit (env : GLEnv) : Bool × Bool × List String :=
  let vs := compileShader env.vsOk
  let fs := compileShader env.fsOk
  if vs.1 = 0 ∨ fs.1 = 0 then (false, false, vs.2 ++ fs.2)
  else if env.linkOk = false then (false, false, vs.2 ++ fs.2)
  else (true, true, vs.2 ++ fs.2)

/-- SeriesManager state: the registry (key, parameter store), the active
key, the ready flag, the context handle, the shared renderer's
`initialized_` flag, and the diagnostic log accumulated so far. -/
structure SeriesManager where
  visualizers : List (String × List (String × ℚ))
  active : String
  ready : Bool
  ctx : ℤ
  rendererInitialized : Bool
  log : List String
deriving DecidableEq

/-- The SeriesManager constructor: the ten registered visualizer keys with
their constructor-set parameter defaults, active key "cantor", no context,
not ready. The defaults of the two visualizers whose headers are missing
from the sources (gregory_leibniz, inv_geometric) are modelled from the
spec's parameter lists. -/
def mkSeriesManager : SeriesManager :=
  { visualizers :=
      [("cantor", [("depth", 6)]),
       ("harmonic", [("terms", 30)]),
       ("geometric", [("ratio", 0.70), ("terms", 15)]),
       ("logistic", [("growth_rate", 4)]),
       ("basel", [("terms", 40)]),
       ("alt_harmonic", [("terms", 30)]),
       ("e_series", [("terms", 12)]),
       ("inv_geometric", [("ratio", 0.70), ("terms", 15)]),
       ("gregory_leibniz", [("terms", 30)]),
       ("apery", [("terms", 30)])]
    active := "cantor"
    ready := false
    ctx := 0
    rendererInitialized := false
    log := [] }

/-- SeriesManager::initGL: store the created context handle, fail when it
is <= 0; otherwise run GLRenderer::init, recording its flag and log;
`ready_` becomes true only on full success. -/
def managerInitGL (st : SeriesManager) (env : GLEnv) : Bool × SeriesManager :=
  let st1 := { st with ctx := env.ctxHandle }
  if env.ctxHandle ≤ 0 then (false, st1)
  else
    let r := rendererInit env
    let st2 := { st1 with rendererInitialized := r.2.1, log := st1.log ++ r.2.2 }
    if r.1 = false then (false, st2)
    else (true, { st2 with ready := true })

/-- One renderer interaction of SeriesManager::render at the granularity of
this embedding: the begin-frame call and the dispatch to the active
visualizer (whose geometry the per-visualizer render embeddings model). -/
inductive DrawCmd where
  | beginFrame (w h : ℚ)
  | visualize (key : String) (t w h : ℚ)
deriving DecidableEq

/-- SeriesManager::render: a no-op unless ready and holding a valid
context; otherwise begin the frame and render the active visualizer when
its key is present. The manager state is never mutated by render. -/
def managerRender (st : SeriesManager) (t w h : ℚ) :
    SeriesManager × List DrawCmd :=
  if st.ready = false ∨ st.ctx ≤ 0 then (st, [])
  else
    (st, DrawCmd.beginFrame w h ::
      (if (st.visualizers.map Prod.fst).contains st.active then
        [DrawCmd.visualize st.active t w h] else []))

/-- SeriesManager::setActiveVisualizer: switch only to a known key. -/
def setActiveVisualizer (st : SeriesManager) (name : String) : SeriesManager :=
  if (st.visualizers.map Prod.fst).contains name then { st with active := name }
  else st

/-- SeriesManager::getActiveVisualizer. -/
def getActiveVisualizer (st : SeriesManager) : String := st.active

/-- SeriesManager::setParam: forwarded to the active visualizer's store
only (find the active entry and update it in place). -/
def managerSetParam (st : SeriesManager) (name : String) (v : ℚ) :
    SeriesManager :=
  { st with visualizers := st.visualizers.map (fun e =>
      if e.1 = st.active then (e.1, setParamStore e.2 name v) else e) }

/-- The manager's public operations (section 6 of the spec). -/
inductive MgrOp where
  | init (env : GLEnv)
  | render (t w h : ℚ)
  | setActive (name : String)
  | setPar (name : String) (v : ℚ)

/-- One public operation applied to the manager state. -/
def mgrStep (st : SeriesManager) : MgrOp → SeriesManager
  | MgrOp.init env => (managerInitGL st env).2
  | MgrOp.render t w h => (managerRender st t w h).1
  | MgrOp.setActive name => setActiveVisualizer st name
  | MgrOp.setPar name v => managerSetParam st name v

/-- A sequence of public operations applied in order. -/
def runOps (st : SeriesManager) : List MgrOp → SeriesManager
  | [] => st
  | op :: rest => runOps (mgrStep st op) rest

/-- C4: activating an unknown key leaves getActiveVisualizer unchanged;
activating a known key makes getActiveVisualizer return it - for every
manager state. -/
theorem set_active_visualizer_spec (st : SeriesManager) (name : String) :
    ((st.visualizers.map Prod.fst).contains name = false →
        getActiveVisualizer (setActiveVisualizer st name) =
          getActiveVisualizer st) ∧
      ((st.visualizers.map Prod.fst).contains name = true →
        getActiveVisualizer (setActiveVisualizer st name) = name) := by
  unfold setActiveVisualizer getActiveVisualizer
  constructor
  · intro h
    rw [h]
    simp
  · intro h
    rw [h]
    simp

theorem managerInitGL_preserves (st : SeriesManager) (env : GLEnv) :
    (managerInitGL st env).2.visualizers = st.visualizers ∧
      (managerInitGL st env).2.active = st.active := by
  unfold managerInitGL
  by_cases h : env.ctxHandle ≤ 0
  · rw [if_pos h]
    exact ⟨rfl, rfl⟩
  · rw [if_neg h]
    by_cases h2 : (rendererInit env).1 = false
    · rw [if_pos h2]
      exact ⟨rfl, rfl⟩
    · rw [if_neg h2]
      exact ⟨rfl, rfl⟩

theorem managerRender_fst (st : SeriesManager) (t w h : ℚ) :
    (managerRender st t w h).1 = st := by
  unfold managerRender
  split
  · rfl
  · rfl

theorem managerSetParam_keys (st : SeriesManager) (name : String) (v : ℚ) :
    (managerSetParam st name v).visualizers.map Prod.fst =
      st.visualizers.map Prod.fst ∧
      (managerSetParam st name v).active = st.active := by
  refine ⟨?_, rfl⟩
  show (st.visualizers.map _).map Prod.fst = _
  rw [List.map_map]
  apply List.map_congr_left
  intro e _
  by_cases h : e.1 = st.active
  · simp [h]
  · simp [h]

theorem mgrStep_invariant (st : SeriesManager) (op : MgrOp)
    (h : ((st.visualizers.map Prod.fst).contains st.active) = true) :
    ((mgrStep st op).visualizers.map Prod.fst).contains (mgrStep st op).active
      = true := by
  cases op with
  | init env =>
      obtain ⟨h1, h2⟩ := managerInitGL_preserves st env
      show ((managerInitGL st env).2.visualizers.map Prod.fst).contains
        (managerInitGL st env).2.active = true
      rw [h1, h2]
      exact h
  | render t w hh =>
      show (((managerRender st t w hh).1.visualizers.map Prod.fst).contains
        (managerRender st t w hh).1.active) = true
      rw [managerRender_fst]
      exact h
  | setActive name =>
      show ((setActiveVisualizer st name).visualizers.map Prod.fst).contains
        (setActiveVisualizer st name).active = true
      unfold setActiveVisualizer
      by_cases hc : ((st.visualizers.map Prod.fst).contains name) = true
      · rw [if_pos hc]
        exact hc
      · rw [if_neg hc]
        exact h
  | setPar name v =>
      obtain ⟨h1, h2⟩ := managerSetParam_keys st name v
      show ((managerSetParam st name v).visualizers.map Prod.fst).contains
        (managerSetParam st name v).active = true
      rw [h1, h2]
      exact h

theorem runOps_invariant :
    ∀ (ops : List MgrOp) (st : SeriesManager),
      ((st.visualizers.map Prod.fst).contains st.active) = true →
      ((runOps st ops).visualizers.map Prod.fst).contains
        (runOps st ops).active = true := by
  intro ops
  induction ops with
  | nil =>
      intro st h
      exact h
  | cons op rest ih =>
      intro st h
      exact ih (mgrStep st op) (mgrStep_invariant st op h)

/-- C10: a fresh SeriesManager answers "cantor" from getActiveVisualizer,
"cantor" is one of the ten registered keys, and under any sequence of
public operations the active key stays a present registry key. -/
theorem manager_active_key_invariant :
    getActiveVisualizer mkSeriesManager = "cantor" ∧
      ((mkSeriesManager.visualizers.map Prod.fst).contains "cantor" = true) ∧
      (∀ ops : List MgrOp,
        ((runOps mkSeriesManager ops).visualizers.map Prod.fst).contains
          (runOps mkSeriesManager ops).active = true) := by
  refine ⟨rfl, by rfl, ?_⟩
  intro ops
  exact runOps_invariant ops mkSeriesManager (by rfl)

/-- C7 counterexample: when the context is created and both shaders compile
but program linking fails, initGL returns false and the diagnostic log
stays empty - the link failure is not logged, against the claim that "the
shader compile/link failure is logged to a diagnostic channel". -/
theorem link_failure_not_logged :
    (managerInitGL mkSeriesManager ⟨5, true, true, false⟩).1 = false ∧
      (managerInitGL mkSeriesManager ⟨5, true, true, false⟩).2.log = [] := by
  constructor
  · rfl
  · rfl

theorem managerInitGL_fail_inert (st : SeriesManager) (env : GLEnv)
    (hready : st.ready = false) (hrinit : st.rendererInitialized = false)
    (h : env.ctxHandle ≤ 0 ∨ env.vsOk = false ∨ env.fsOk = false ∨
      env.linkOk = false) :
    (managerInitGL st env).1 = false ∧
      (managerInitGL st env).2.ready = false ∧
      (managerInitGL st env).2.rendererInitialized = false := by
  unfold managerInitGL
  by_cases hch : env.ctxHandle ≤ 0
  · rw [if_pos hch]
    exact ⟨rfl, hready, hrinit⟩
  · rw [if_neg hch]
    have hfail : (rendererInit env).1 = false ∧ (rendererInit env).2.1 = false := by
      rcases h with h | h | h | h
      · exact absurd h hch
      · unfold rendererInit compileShader
        rw [h]
        simp
      · unfold rendererInit compileShader
        rw [h]
        rcases env.vsOk with _ | _ <;> simp
      · unfold rendererInit compileShader
        rw [h]
        rcases env.vsOk with _ | _ <;> rcases env.fsOk with _ | _ <;> simp
    rw [if_pos hfail.1]
    exact ⟨rfl, hready, hfail.2⟩

/-- C7 (amended): any initialization failure (context creation, shader
compilation, or program linking) makes initGL return false with the ready
flag and the renderer's initialized flag still false, and every subsequent
render call is a strict no-op (state unchanged, nothing drawn); a shader
compile failure is logged to the diagnostic channel, but a pure link
failure leaves the log empty. -/
theorem gl_init_failure_inert (env : GLEnv)
    (h : env.ctxHandle ≤ 0 ∨ env.vsOk = false ∨ env.fsOk = false ∨
      env.linkOk = false) :
    (managerInitGL mkSeriesManager env).1 = false ∧
      (managerInitGL mkSeriesManager env).2.ready = false ∧
      (managerInitGL mkSeriesManager env).2.rendererInitialized = false ∧
      (∀ t w hh : ℚ, managerRender (managerInitGL mkSeriesManager env).2 t w hh =
        ((managerInitGL mkSeriesManager env).2, [])) ∧
      (0 < env.ctxHandle → (env.vsOk = false ∨ env.fsOk = false) →
        (managerInitGL mkSeriesManager env).2.log ≠ []) ∧
      (0 < env.ctxHandle → env.vsOk = true → env.fsOk = true →
        env.linkOk = false → (managerInitGL mkSeriesManager env).2.log = []) := by
  obtain ⟨h1, h2, h3⟩ := managerInitGL_fail_inert mkSeriesManager env rfl rfl h
  refine ⟨h1, h2, h3, ?_, ?_, ?_⟩
  · intro t w hh
    unfold managerRender
    rw [if_pos (Or.inl h2)]
  · intro hch hcomp
    have hne : (rendererInit env).2.2 ≠ [] := by
      unfold rendererInit compileShader
      rcases hcomp with hc | hc <;> rw [hc]
      · rcases env.fsOk with _ | _ <;> simp
      · rcases env.vsOk with _ | _ <;> simp
    unfold managerInitGL
    rw [if_neg (by omega)]
    by_cases hf : (rendererInit env).1 = false
    · rw [if_pos hf]
      show mkSeriesManager.log ++ (rendererInit env).2.2 ≠ []
      rw [show mkSeriesManager.log = [] from rfl, List.nil_append]
      exact hne
    · rw [if_neg hf]
      show mkSeriesManager.log ++ (rendererInit env).2.2 ≠ []
      rw [show mkSeriesManager.log = [] from rfl, List.nil_append]
      exact hne
  · intro hch hvs hfs hlk
    have hlog : (rendererInit env).2.2 = [] := by
      unfold rendererInit compileShader
      rw [hvs, hfs, hlk]
      simp
    unfold managerInitGL
    rw [if_neg (by omega)]
    by_cases hf : (rendererInit env).1 = false
    · rw [if_pos hf]
      show mkSeriesManager.log ++ (rendererInit env).2.2 = []
      simp [hlog, mkSeriesManager]
    · rw [if_neg hf]
      show mkSeriesManager.log ++ (rendererInit env).2.2 = []
      simp [hlog, mkSeriesManager]

theorem gl_init_failure_inert_witness :
    (managerInitGL mkSeriesManager ⟨5, true, true, false⟩).1 = false ∧
      (managerInitGL mkSeriesManager ⟨5, true, true, false⟩).2.ready = false ∧
      (managerInitGL mkSeriesManager ⟨5, true, true, false⟩).2.rendererInitialized
        = false ∧
      (∀ t w hh : ℚ, managerRender
          (managerInitGL mkSeriesManager ⟨5, true, true, false⟩).2 t w hh =
        ((managerInitGL mkSeriesManager ⟨5, true, true, false⟩).2, [])) ∧
      (0 < (5 : ℤ) → ((true : Bool) = false ∨ (true : Bool) = false) →
        (managerInitGL mkSeriesManager ⟨5, true, true, false⟩).2.log ≠ []) ∧
      (0 < (5 : ℤ) → (true : Bool) = true → (true : Bool) = true →
        (false : Bool) = false →
        (managerInitGL mkSeriesManager ⟨5, true, true, false⟩).2.log = []) :=
  gl_init_failure_inert ⟨5, true, true, false⟩ (Or.inr (Or.inr (Or.inr rfl)))

/-- The set of 0-based term indices whose bar is rendered at full reveal
alpha (clamp = 1) by the harmonic visualizer at parameter `p`, time `t`
(the bars do not depend on the sine argument, fixed to 0 here). -/
def harmonicOpaque (p t : ℚ) : Set ℕ :=
  {j | ∃ b ∈ (harmonicRender p t 0).bars, b.idx = j ∧ b.alpha = 1}

/-- Fully-revealed term indices of the geometric visualizer. -/
def geometricOpaque (r p t : ℚ) : Set ℕ :=
  {j | ∃ b ∈ (geometricRender r p t 0).bars, b.idx = j ∧ b.alpha = 1}

/-- Fully-revealed term indices of the Basel visualizer. -/
def baselOpaque (p t : ℚ) : Set ℕ :=
  {j | ∃ b ∈ (baselRender p t 0).bars, b.idx = j ∧ b.alpha = 1}

/-- Fully-revealed term indices of the e-series visualizer. -/
def eSeriesOpaque (p t : ℚ) : Set ℕ :=
  {j | ∃ b ∈ (eSeriesRender p t 0).bars, b.idx = j ∧ b.alpha = 1}

/-- Fully-revealed term indices of the alternating-harmonic visualizer. -/
def altOpaque (p t : ℚ) : Set ℕ :=
  {j | ∃ b ∈ (altRender p t 0).bars, b.idx = j ∧ b.alpha = 1}

/-- Fully-revealed term indices of the Apéry visualizer. -/
def aperyOpaque (p t : ℚ) : Set ℕ :=
  {j | ∃ b ∈ (aperyRender p t 0).bars, b.idx = j ∧ b.alpha = 1}

/-- Fully-revealed term indices of the spec-modelled Gregory-Leibniz
visualizer. -/
def gregoryOpaque (p t : ℚ) : Set ℕ :=
  {j | ∃ b ∈ (gregoryRender p t 0).bars, b.idx = j ∧ b.alpha = 1}

/-- Fully-revealed term indices of the spec-modelled inverse-geometric
visualizer. -/
def invGeometricOpaque (r p t : ℚ) : Set ℕ :=
  {j | ∃ b ∈ (invGeometricRender r p t 0).bars, b.idx = j ∧ b.alpha = 1}

/-- Fully-revealed recursion levels of the Cantor visualizer. -/
def cantorOpaque (p t : ℚ) : Set ℕ :=
  {lv | ∃ s ∈ (cantorRender p t).segs, s.level = lv ∧ s.alpha = 1}

theorem harmonic_opaque_iff (p t : ℚ) (j : ℕ) :
    j ∈ harmonicOpaque p t ↔
      j < (visibleCount (clampZ (truncQ p) 1 2000).toNat (t * 10)).toNat ∧
        revealAlpha (t * 10) j = 1 :=
  barLoop_opaque_iff _ _ _ (t * 10) (fun _ _ _ => rfl) (fun _ _ _ => rfl) _ j

theorem geometric_opaque_iff (r p t : ℚ) (j : ℕ) :
    j ∈ geometricOpaque r p t ↔
      j < (visibleCount (clampZ (truncQ p) 1 50).toNat (t * 8)).toNat ∧
        revealAlpha (t * 8) j = 1 :=
  barLoop_opaque_iff _ _ _ (t * 8) (fun _ _ _ => rfl) (fun _ _ _ => rfl) _ j

theorem basel_opaque_iff (p t : ℚ) (j : ℕ) :
    j ∈ baselOpaque p t ↔
      j < (visibleCount (clampZ (truncQ p) 1 2000).toNat (t * 10)).toNat ∧
        revealAlpha (t * 10) j = 1 :=
  barLoop_opaque_iff _ _ _ (t * 10) (fun _ _ _ => rfl) (fun _ _ _ => rfl) _ j

theorem eSeries_opaque_iff (p t : ℚ) (j : ℕ) :
    j ∈ eSeriesOpaque p t ↔
      j < (visibleCount (clampZ (truncQ p) 1 25).toNat (t * 4)).toNat ∧
        revealAlpha (t * 4) j = 1 :=
  barLoop_opaque_iff _ _ _ (t * 4) (fun _ _ _ => rfl) (fun _ _ _ => rfl) _ j

theorem alt_opaque_iff (p t : ℚ) (j : ℕ) :
    j ∈ altOpaque p t ↔
      j < (visibleCount (clampZ (truncQ p) 1 2000).toNat (t * 8)).toNat ∧
        revealAlpha (t * 8) j = 1 :=
  barLoop_opaque_iff _ _ _ (t * 8) (fun _ _ _ => rfl) (fun _ _ _ => rfl) _ j

theorem apery_opaque_iff (p t : ℚ) (j : ℕ) :
    j ∈ aperyOpaque p t ↔
      j < (visibleCount (clampZ (truncQ p) 1 200).toNat (t * 10)).toNat ∧
        revealAlpha (t * 10) j = 1 :=
  barLoop_opaque_iff _ _ _ (t * 10) (fun _ _ _ => rfl) (fun _ _ _ => rfl) _ j

theorem gregory_opaque_iff (p t : ℚ) (j : ℕ) :
    j ∈ gregoryOpaque p t ↔
      j < (visibleCount (clampZ (truncQ p) 1 2000).toNat (t * 8)).toNat ∧
        revealAlpha (t * 8) j = 1 :=
  barLoop_opaque_iff _ _ _ (t * 8) (fun _ _ _ => rfl) (fun _ _ _ => rfl) _ j

theorem invGeometric_opaque_iff (r p t : ℚ) (j : ℕ) :
    j ∈ invGeometricOpaque r p t ↔
      j < (visibleCount (clampZ (truncQ p) 1 50).toNat (t * 8)).toNat ∧
        revealAlpha (t * 8) j = 1 :=
  barLoop_opaque_iff _ _ _ (t * 8) (fun _ _ _ => rfl) (fun _ _ _ => rfl) _ j

theorem cantor_opaque_iff (p t : ℚ) (lv : ℕ) :
    lv ∈ cantorOpaque p t ↔
      lv ≤ (clampZ (truncQ p) 1 12).toNat ∧ 1 ≤ t * 1.5 - (lv : ℚ) := by
  show (∃ s ∈ (cantorRender p t).segs, s.level = lv ∧ s.alpha = 1) ↔ _
  unfold cantorRender
  rw [show (cantorRenderCore (clampZ (truncQ p) 1 12).toNat t).segs =
      generateCantor (-1 + 0.08) (1 - 0.08) (1 - 0.08)
        (((1 - 0.08) - (-1 + 0.08)) /
            (((clampZ (truncQ p) 1 12).toNat : ℚ) + 1) * 0.70)
        (((1 - 0.08) - (-1 + 0.08)) /
            (((clampZ (truncQ p) 1 12).toNat : ℚ) + 1)) (t * 1.5)
        ((clampZ (truncQ p) 1 12).toNat + 2) 0 1 0
        (clampZ (truncQ p) 1 12).toNat from rfl]
  rw [generateCantor_opaque_iff _ _ _ _ _ (t * 1.5) _ lv _ 0 1 0 (by omega)]
  constructor
  · rintro ⟨_, h2, h3⟩
    exact ⟨h2, h3⟩
  · rintro ⟨h2, h3⟩
    exact ⟨Nat.zero_le lv, h2, h3⟩

theorem opaque_mono_aux (terms : ℕ) (rate t1 t2 : ℚ) (hrate : 0 ≤ rate)
    (ht : t1 ≤ t2) (j : ℕ)
    (h : j < (visibleCount terms (t1 * rate)).toNat ∧
      revealAlpha (t1 * rate) j = 1) :
    j < (visibleCount terms (t2 * rate)).toNat ∧
      revealAlpha (t2 * rate) j = 1 := by
  have hr : t1 * rate ≤ t2 * rate := mul_le_mul_of_nonneg_right ht hrate
  refine ⟨lt_of_lt_of_le h.1 (visibleCount_toNat_mono terms hr), ?_⟩
  rw [revealAlpha_eq_one_iff] at h ⊢
  obtain ⟨_, h2⟩ := h
  linarith

/-- C6: for every series visualizer (the nine term/level-based variants,
the two missing headers spec-modelled) with fixed parameters, the set of
terms (or Cantor levels) at full reveal alpha at a later time contains the
set at any earlier time: the animation never un-reveals a term. -/
theorem reveal_monotone (p r t1 t2 : ℚ) (h : t1 < t2) :
    cantorOpaque p t1 ⊆ cantorOpaque p t2 ∧
      harmonicOpaque p t1 ⊆ harmonicOpaque p t2 ∧
      geometricOpaque r p t1 ⊆ geometricOpaque r p t2 ∧
      baselOpaque p t1 ⊆ baselOpaque p t2 ∧
      eSeriesOpaque p t1 ⊆ eSeriesOpaque p t2 ∧
      altOpaque p t1 ⊆ altOpaque p t2 ∧
      aperyOpaque p t1 ⊆ aperyOpaque p t2 ∧
      gregoryOpaque p t1 ⊆ gregoryOpaque p t2 ∧
      invGeometricOpaque r p t1 ⊆ invGeometricOpaque r p t2 := by
  have hle : t1 ≤ t2 := le_of_lt h
  refine ⟨?_, ?_, ?_, ?_, ?_, ?_, ?_, ?_, ?_⟩
  · intro lv hlv
    rw [cantor_opaque_iff] at hlv ⊢
    have h15 : t1 * 1.5 ≤ t2 * 1.5 := by linarith
    exact ⟨hlv.1, by linarith [hlv.2]⟩
  · intro j hj
    rw [harmonic_opaque_iff] at hj ⊢
    exact opaque_mono_aux _ 10 t1 t2 (by norm_num) hle j hj
  · intro j hj
    rw [geometric_opaque_iff] at hj ⊢
    exact opaque_mono_aux _ 8 t1 t2 (by norm_num) hle j hj
  · intro j hj
    rw [basel_opaque_iff] at hj ⊢
    exact opaque_mono_aux _ 10 t1 t2 (by norm_num) hle j hj
  · intro j hj
    rw [eSeries_opaque_iff] at hj ⊢
    exact opaque_mono_aux _ 4 t1 t2 (by norm_num) hle j hj
  · intro j hj
    rw [alt_opaque_iff] at hj ⊢
    exact opaque_mono_aux _ 8 t1 t2 (by norm_num) hle j hj
  · intro j hj
    rw [apery_opaque_iff] at hj ⊢
    exact opaque_mono_aux _ 10 t1 t2 (by norm_num) hle j hj
  · intro j hj
    rw [gregory_opaque_iff] at hj ⊢
    exact opaque_mono_aux _ 8 t1 t2 (by norm_num) hle j hj
  · intro j hj
    rw [invGeometric_opaque_iff] at hj ⊢
    exact opaque_mono_aux _ 8 t1 t2 (by norm_num) hle j hj

theorem reveal_monotone_witness :
    cantorOpaque 6 0 ⊆ cantorOpaque 6 1 ∧
      harmonicOpaque 6 0 ⊆ harmonicOpaque 6 1 ∧
      geometricOpaque 0.5 6 0 ⊆ geometricOpaque 0.5 6 1 ∧
      baselOpaque 6 0 ⊆ baselOpaque 6 1 ∧
      eSeriesOpaque 6 0 ⊆ eSeriesOpaque 6 1 ∧
      altOpaque 6 0 ⊆ altOpaque 6 1 ∧
      aperyOpaque 6 0 ⊆ aperyOpaque 6 1 ∧
      gregoryOpaque 6 0 ⊆ gregoryOpaque 6 1 ∧
      invGeometricOpaque 0.5 6 0 ⊆ invGeometricOpaque 0.5 6 1 :=
  reveal_monotone 6 0.5 0 1 (by norm_num)

theorem barLoop_snd_inv {α : Type} (init : α) (step : ℕ → α → α)
    (mk : ℕ → α → α → Bar) (P : α → Prop) (hinit : P init)
    (hstep : ∀ k a, P a → P (step k a)) (n : ℕ) :
    P (barLoop init step mk n).2 := by
  induction n with
  | zero => exact hinit
  | succ n ih => exact hstep n _ ih

theorem barLoop_mem_shape_inv {α : Type} (init : α) (step : ℕ → α → α)
    (mk : ℕ → α → α → Bar) (P : α → Prop) (hinit : P init)
    (hstep : ∀ k a, P a → P (step k a)) (n : ℕ) :
    ∀ b ∈ (barLoop init step mk n).1, ∃ k a, P a ∧ b = mk k a (step k a) := by
  induction n with
  | zero =>
      intro b hb
      simp [barLoop] at hb
  | succ n ih =>
      intro b hb
      rw [barLoop_fst_succ, List.mem_append] at hb
      rcases hb with hb | hb
      · exact ih b hb
      · rw [List.mem_singleton] at hb
        exact ⟨n, (barLoop init step mk n).2,
          barLoop_snd_inv init step mk P hinit hstep n, hb⟩

theorem swap_pair_le (a b : ℚ) :
    (if b < a then (b, a) else (a, b)).1 ≤ (if b < a then (b, a) else (a, b)).2 := by
  by_cases h : b < a
  · rw [if_pos h]
    exact le_of_lt h
  · rw [if_neg h]
    exact le_of_not_lt h

theorem harmonicMk_wf (c : BarsCtx) (k : ℕ) (a b : ℚ)
    (hg : 2 * c.barGap ≤ c.barW) (hs : 0 ≤ c.yScale)
    (hy : c.yMin ≤ c.yMax) :
    quadsWF (harmonicMk c k a b).verts = true := by
  apply quadsWF_quadVerts
  · nlinarith
  · have hterm : (0 : ℚ) ≤ 1 / ((k : ℚ) + 1) := by positivity
    have hm : (0 : ℚ) ≤ (1 / ((k : ℚ) + 1) / c.yScale) * (c.yMax - c.yMin) :=
      mul_nonneg (div_nonneg hterm hs) (by linarith)
    linarith

theorem baselMk_wf (c : BarsCtx) (k : ℕ) (a b : ℚ)
    (hg : 2 * c.barGap ≤ c.barW) (hs : 0 ≤ c.yScale)
    (hy : c.yMin ≤ c.yMax) :
    quadsWF (baselMk c k a b).verts = true := by
  apply quadsWF_quadVerts
  · nlinarith
  · have hterm : (0 : ℚ) ≤ 1 / (((k : ℚ) + 1) * ((k : ℚ) + 1)) := by positivity
    have hm : (0 : ℚ) ≤ (1 / (((k : ℚ) + 1) * ((k : ℚ) + 1)) / c.yScale) *
        (c.yMax - c.yMin) :=
      mul_nonneg (div_nonneg hterm hs) (by linarith)
    linarith

theorem aperyMk_wf (c : BarsCtx) (k : ℕ) (a b : ℚ)
    (hg : 2 * c.barGap ≤ c.barW) (hs : 0 ≤ c.yScale)
    (hy : c.yMin ≤ c.yMax) :
    quadsWF (aperyMk c k a b).verts = true := by
  apply quadsWF_quadVerts
  · nlinarith
  · have hterm : (0 : ℚ) ≤
        1 / (((k : ℚ) + 1) * ((k : ℚ) + 1) * ((k : ℚ) + 1)) := by positivity
    have hm : (0 : ℚ) ≤
        (1 / (((k : ℚ) + 1) * ((k : ℚ) + 1) * ((k : ℚ) + 1)) / c.yScale) *
          (c.yMax - c.yMin) :=
      mul_nonneg (div_nonneg hterm hs) (by linarith)
    linarith

theorem eMk_wf (c : BarsCtx) (k : ℕ) (a b : ℚ × ℚ)
    (hg : 2 * c.barGap ≤ c.barW) (hs : 0 ≤ c.yScale)
    (hy : c.yMin ≤ c.yMax) (hfact : 0 ≤ b.1) :
    quadsWF (eMk c k a b).verts = true := by
  apply quadsWF_quadVerts
  · nlinarith
  · have hterm : (0 : ℚ) ≤ 1 / b.1 := by positivity
    have hm : (0 : ℚ) ≤ (1 / b.1 / c.yScale) * (c.yMax - c.yMin) :=
      mul_nonneg (div_nonneg hterm hs) (by linarith)
    linarith

theorem geoMk_wf (c : MidCtx) (k : ℕ) (a b : ℚ × ℚ)
    (hg : 2 * c.barGap ≤ c.barW) :
    quadsWF (geoMk c k a b).verts = true := by
  apply quadsWF_quadVerts
  · nlinarith
  · exact swap_pair_le c.yMid (c.yMid + a.1 / c.scale * c.yExt)

theorem altMk_wf (c : MidCtx) (k : ℕ) (a b : ℚ)
    (hg : 2 * c.barGap ≤ c.barW) :
    quadsWF (altMk c k a b).verts = true := by
  apply quadsWF_quadVerts
  · nlinarith
  · exact swap_pair_le c.yMid
      (c.yMid + (if (k + 1) % 2 = 1 then (1 : ℚ) else -1) / ((k : ℚ) + 1) /
        c.scale * c.yExt)

theorem gregMk_wf (c : MidCtx) (k : ℕ) (a b : ℚ)
    (hg : 2 * c.barGap ≤ c.barW) :
    quadsWF (gregMk c k a b).verts = true := by
  apply quadsWF_quadVerts
  · nlinarith
  · exact swap_pair_le c.yMid
      (c.yMid + (if k % 2 = 0 then (1 : ℚ) else -1) / (2 * (k : ℚ) + 1) /
        c.scale * c.yExt)

theorem harmonicRenderCore_wf (terms : ℕ) (t s3 : ℚ) :
    quadsWF (harmonicRenderCore terms t s3).quads = true := by
  apply quadsWF_flatten
  intro l hl
  obtain ⟨b, hb, rfl⟩ := List.mem_map.mp hl
  obtain ⟨k, a, rfl⟩ := barLoop_mem_shape _ _ _ _ b hb
  have hbw : (0 : ℚ) ≤ ((1 - 0.06) - (-1 + 0.14)) / ((terms : ℚ)) :=
    div_nonneg (by norm_num) (by positivity)
  apply harmonicMk_wf
  · show 2 * (((1 - 0.06) - (-1 + 0.14)) / ((terms : ℚ)) * 0.12) ≤
      ((1 - 0.06) - (-1 + 0.14)) / ((terms : ℚ))
    nlinarith
  · show (0 : ℚ) ≤ max 1 (harmonicMaxSum terms) * 1.1
    have h1 := le_max_left (1 : ℚ) (harmonicMaxSum terms)
    nlinarith
  · show (-1 + 0.12 : ℚ) ≤ 1 - 0.08
    norm_num

theorem baselRenderCore_wf (terms : ℕ) (t s3 : ℚ) :
    quadsWF (baselRenderCore terms t s3).quads = true := by
  apply quadsWF_flatten
  intro l hl
  obtain ⟨b, hb, rfl⟩ := List.mem_map.mp hl
  obtain ⟨k, a, rfl⟩ := barLoop_mem_shape _ _ _ _ b hb
  have hbw : (0 : ℚ) ≤ ((1 - 0.06) - (-1 + 0.14)) / ((terms : ℚ)) :=
    div_nonneg (by norm_num) (by positivity)
  apply baselMk_wf
  · show 2 * (((1 - 0.06) - (-1 + 0.14)) / ((terms : ℚ)) * 0.12) ≤
      ((1 - 0.06) - (-1 + 0.14)) / ((terms : ℚ))
    nlinarith
  · show (0 : ℚ) ≤ (1.6449340668 : ℚ) * 1.15
    norm_num
  · show (-1 + 0.12 : ℚ) ≤ 1 - 0.08
    norm_num

theorem aperyRenderCore_wf (terms : ℕ) (t s3 : ℚ) :
    quadsWF (aperyRenderCore terms t s3).quads = true := by
  apply quadsWF_flatten
  intro l hl
  obtain ⟨b, hb, rfl⟩ := List.mem_map.mp hl
  obtain ⟨k, a, rfl⟩ := barLoop_mem_shape _ _ _ _ b hb
  have hbw : (0 : ℚ) ≤ ((1 - 0.06) - (-1 + 0.14)) / ((terms : ℚ)) :=
    div_nonneg (by norm_num) (by positivity)
  apply aperyMk_wf
  · show 2 * (((1 - 0.06) - (-1 + 0.14)) / ((terms : ℚ)) * 0.12) ≤
      ((1 - 0.06) - (-1 + 0.14)) / ((terms : ℚ))
    nlinarith
  · show (0 : ℚ) ≤ (1.20205690 : ℚ) * 1.15
    norm_num
  · show (-1 + 0.12 : ℚ) ≤ 1 - 0.08
    norm_num

theorem eSeriesRenderCore_wf (terms : ℕ) (t s3 : ℚ) :
    quadsWF (eSeriesRenderCore terms t s3).quads = true := by
  apply quadsWF_flatten
  intro l hl
  obtain ⟨b, hb, rfl⟩ := List.mem_map.mp hl
  obtain ⟨k, a, ha, rfl⟩ := barLoop_mem_shape_inv _ _ _
    (fun x : ℚ × ℚ => 0 < x.1) (by norm_num)
    (fun k a hp => by
      unfold eStep
      by_cases hk : 0 < k
      · show (0 : ℚ) < (if 0 < k then a.1 * (k : ℚ) else a.1)
        rw [if_pos hk]
        exact mul_pos hp (by exact_mod_cast hk)
      · show (0 : ℚ) < (if 0 < k then a.1 * (k : ℚ) else a.1)
        rw [if_neg hk]
        exact hp) _ b hb
  have hbw : (0 : ℚ) ≤ ((1 - 0.06) - (-1 + 0.14)) / ((terms : ℚ)) :=
    div_nonneg (by norm_num) (by positivity)
  have hfact : 0 < (eStep k a).1 := by
    unfold eStep
    by_cases hk : 0 < k
    · show (0 : ℚ) < (if 0 < k then a.1 * (k : ℚ) else a.1)
      rw [if_pos hk]
      exact mul_pos ha (by exact_mod_cast hk)
    · show (0 : ℚ) < (if 0 < k then a.1 * (k : ℚ) else a.1)
      rw [if_neg hk]
      exact ha
  apply eMk_wf
  · show 2 * (((1 - 0.06) - (-1 + 0.14)) / ((terms : ℚ)) * 0.12) ≤
      ((1 - 0.06) - (-1 + 0.14)) / ((terms : ℚ))
    nlinarith
  · show (0 : ℚ) ≤ (2.71828182845 : ℚ) * 1.12
    norm_num
  · show (-1 + 0.12 : ℚ) ≤ 1 - 0.08
    norm_num
  · exact le_of_lt hfact

theorem geometricRenderCore_wf (ratio : ℚ) (terms : ℕ) (t s3 : ℚ) :
    quadsWF (geometricRenderCore ratio terms t s3).quads = true := by
  apply quadsWF_flatten
  intro l hl
  obtain ⟨b, hb, rfl⟩ := List.mem_map.mp hl
  obtain ⟨k, a, rfl⟩ := barLoop_mem_shape _ _ _ _ b hb
  have hbw : (0 : ℚ) ≤ ((1 - 0.08) - (-1 + 0.08)) / ((terms : ℚ)) :=
    div_nonneg (by norm_num) (by positivity)
  apply geoMk_wf
  · show 2 * (((1 - 0.08) - (-1 + 0.08)) / ((terms : ℚ)) * 0.10) ≤
      ((1 - 0.08) - (-1 + 0.08)) / ((terms : ℚ))
    nlinarith

theorem altRenderCore_wf (terms : ℕ) (t s3 : ℚ) :
    quadsWF (altRenderCore terms t s3).quads = true := by
  apply quadsWF_flatten
  intro l hl
  obtain ⟨b, hb, rfl⟩ := List.mem_map.mp hl
  obtain ⟨k, a, rfl⟩ := barLoop_mem_shape _ _ _ _ b hb
  have hbw : (0 : ℚ) ≤ ((1 - 0.06) - (-1 + 0.14)) / ((terms : ℚ)) :=
    div_nonneg (by norm_num) (by positivity)
  apply altMk_wf
  · show 2 * (((1 - 0.06) - (-1 + 0.14)) / ((terms : ℚ)) * 0.10) ≤
      ((1 - 0.06) - (-1 + 0.14)) / ((terms : ℚ))
    nlinarith

theorem gregoryRenderCore_wf (terms : ℕ) (t s3 : ℚ) :
    quadsWF (gregoryRenderCore terms t s3).quads = true := by
  apply quadsWF_flatten
  intro l hl
  obtain ⟨b, hb, rfl⟩ := List.mem_map.mp hl
  obtain ⟨k, a, rfl⟩ := barLoop_mem_shape _ _ _ _ b hb
  have hbw : (0 : ℚ) ≤ ((1 - 0.08) - (-1 + 0.08)) / ((terms : ℚ)) :=
    div_nonneg (by norm_num) (by positivity)
  apply gregMk_wf
  · show 2 * (((1 - 0.08) - (-1 + 0.08)) / ((terms : ℚ)) * 0.10) ≤
      ((1 - 0.08) - (-1 + 0.08)) / ((terms : ℚ))
    nlinarith

theorem generateCantor_seg_wf (xMin xMax yTop barH gap revealed : ℚ)
    (hx : 0 ≤ xMax - xMin) (hb : 0 ≤ barH) :
    ∀ (fuel : ℕ) (left right : ℚ) (level maxDepth : ℕ), left ≤ right →
      ∀ s ∈ generateCantor xMin xMax yTop barH gap revealed fuel left right
        level maxDepth, quadsWF s.verts = true := by
  intro fuel
  induction fuel with
  | zero =>
      intro l r lv md _ s hs
      simp [generateCantor] at hs
  | succ f ih =>
      intro l r lv md hlr s hs
      simp only [generateCantor] at hs
      by_cases h1 : md < lv
      · rw [if_pos h1] at hs
        simp at hs
      · rw [if_neg h1] at hs
        by_cases h2 : revealAlpha revealed lv ≤ 0
        · rw [if_pos h2] at hs
          simp at hs
        · rw [if_neg h2] at hs
          have hthird : (0 : ℚ) ≤ (r - l) / 3 := by
            apply div_nonneg _ (by norm_num)
            linarith
          rcases List.mem_cons.mp hs with rfl | hs
          · apply quadsWF_quadVerts
            · have := mul_le_mul_of_nonneg_right hlr hx
              linarith
            · linarith
          · rcases List.mem_append.mp hs with hs | hs
            · exact ih l (l + (r - l) / 3) (lv + 1) md (by linarith) s hs
            · exact ih (r - (r - l) / 3) r (lv + 1) md (by linarith) s hs

theorem cantorRenderCore_wf (depth : ℕ) (t : ℚ) :
    quadsWF (cantorRenderCore depth t).quads = true := by
  apply quadsWF_flatten
  intro l hl
  obtain ⟨s, hs, rfl⟩ := List.mem_map.mp hl
  refine generateCantor_seg_wf (-1 + 0.08) (1 - 0.08) (1 - 0.08)
    (((1 - 0.08) - (-1 + 0.08)) / (((depth : ℕ) : ℚ) + 1) * 0.70)
    (((1 - 0.08) - (-1 + 0.08)) / (((depth : ℕ) : ℚ) + 1)) (t * 1.5)
    (by norm_num) ?_ (depth + 2) 0 1 0 depth (by norm_num) s hs
  have hgap : (0 : ℚ) ≤ ((1 - 0.08) - (-1 + 0.08)) / (((depth : ℕ) : ℚ) + 1) :=
    div_nonneg (by norm_num) (by positivity)
  nlinarith

theorem logisticIter_mem (r : ℚ) (hr0 : 0 ≤ r) (hr4 : r ≤ 4) (n : ℕ) :
    0 ≤ logisticIter r n ∧ logisticIter r n ≤ 1 := by
  induction n with
  | zero =>
      constructor <;> norm_num [logisticIter]
  | succ n ih =>
      obtain ⟨h0, h1⟩ := ih
      constructor
      · show (0 : ℚ) ≤ r * logisticIter r n * (1 - logisticIter r n)
        have := mul_nonneg (mul_nonneg hr0 h0) (by linarith : (0 : ℚ) ≤ 1 - logisticIter r n)
        exact this
      · show r * logisticIter r n * (1 - logisticIter r n) ≤ 1
        nlinarith [sq_nonneg (logisticIter r n - 1 / 2)]

theorem logisticRenderCore_points_bound (rMax w t : ℚ) (h1 : 1 ≤ rMax)
    (h4 : rMax ≤ 4) :
    ∀ v ∈ (logisticRenderCore rMax w t).points,
      (-1 + 0.08 : ℚ) ≤ v.y ∧ v.y ≤ 1 - 0.08 := by
  intro v hv
  have hv2 : v ∈ (List.range
      ((max 1 (truncQ (((clampZ (truncQ (w * 0.7)) 200 1400).toNat : ℚ) *
        clampQ (t * 0.5) 0 1))).toNat)).flatMap (fun col =>
      (List.range 120).map (fun i =>
        let tc := (col : ℚ) / (((clampZ (truncQ (w * 0.7)) 200 1400).toNat : ℚ) - 1)
        let r := 1 + (rMax - 1) * tc
        let clipX := (-1 + 0.08) + ((1 - 0.08) - (-1 + 0.08)) * tc
        let x := logisticIter r (300 + i + 1)
        let clipY := (-1 + 0.08) + ((1 - 0.08) - (-1 + 0.08)) * x
        let col2 := hsvToRgb (0.50 + 0.30 * tc) 0.70 0.92
        (⟨clipX, clipY, col2.1, col2.2.1, col2.2.2, 0.55⟩ : Vertex))) := hv
  rw [List.mem_flatMap] at hv2
  obtain ⟨col, hcol, hv3⟩ := hv2
  rw [List.mem_map] at hv3
  obtain ⟨i, hi, rfl⟩ := hv3
  rw [List.mem_range] at hcol
  have hcz : (200 : ℤ) ≤ clampZ (truncQ (w * 0.7)) 200 1400 ∧
      clampZ (truncQ (w * 0.7)) 200 1400 ≤ 1400 := by
    unfold clampZ
    omega
  have hcols : 200 ≤ (clampZ (truncQ (w * 0.7)) 200 1400).toNat := by omega
  have hrf0 : (0 : ℚ) ≤ clampQ (t * 0.5) 0 1 := clampQ_ge (by norm_num)
  have hrf1 : clampQ (t * 0.5) 0 1 ≤ 1 := clampQ_le
  have hvis : (max 1 (truncQ (((clampZ (truncQ (w * 0.7)) 200 1400).toNat : ℚ) *
      clampQ (t * 0.5) 0 1))).toNat ≤ (clampZ (truncQ (w * 0.7)) 200 1400).toNat := by
    have hle : ((clampZ (truncQ (w * 0.7)) 200 1400).toNat : ℚ) *
        clampQ (t * 0.5) 0 1 ≤ ((clampZ (truncQ (w * 0.7)) 200 1400).toNat : ℚ) := by
      have hc0 : (0 : ℚ) ≤ ((clampZ (truncQ (w * 0.7)) 200 1400).toNat : ℚ) := by
        positivity
      nlinarith
    have := truncQ_mono hle
    rw [truncQ_natCast] at this
    omega
  have hcolsQ : (1 : ℚ) ≤ ((clampZ (truncQ (w * 0.7)) 200 1400).toNat : ℚ) - 1 := by
    have : (200 : ℚ) ≤ ((clampZ (truncQ (w * 0.7)) 200 1400).toNat : ℚ) := by
      exact_mod_cast hcols
    linarith
  have htc0 : (0 : ℚ) ≤ (col : ℚ) /
      (((clampZ (truncQ (w * 0.7)) 200 1400).toNat : ℚ) - 1) :=
    div_nonneg (by positivity) (by linarith)
  have htc1 : (col : ℚ) /
      (((clampZ (truncQ (w * 0.7)) 200 1400).toNat : ℚ) - 1) ≤ 1 := by
    rw [div_le_one (by linarith)]
    have hcol2 : col ≤ (clampZ (truncQ (w * 0.7)) 200 1400).toNat - 1 := by omega
    have : ((col : ℕ) : ℚ) ≤
        (((clampZ (truncQ (w * 0.7)) 200 1400).toNat - 1 : ℕ) : ℚ) := by
      exact_mod_cast hcol2
    have hge1 : (1 : ℕ) ≤ (clampZ (truncQ (w * 0.7)) 200 1400).toNat := by omega
    push_cast [hge1] at this
    linarith
  set tc := (col : ℚ) / (((clampZ (truncQ (w * 0.7)) 200 1400).toNat : ℚ) - 1)
  have hr0 : (0 : ℚ) ≤ 1 + (rMax - 1) * tc := by nlinarith
  have hr4b : 1 + (rMax - 1) * tc ≤ 4 := by nlinarith
  obtain ⟨hx0, hx1⟩ := logisticIter_mem (1 + (rMax - 1) * tc) hr0 hr4b (300 + i + 1)
  constructor
  · show (-1 + 0.08 : ℚ) ≤ (-1 + 0.08) + ((1 - 0.08) - (-1 + 0.08)) *
      logisticIter (1 + (rMax - 1) * tc) (300 + i + 1)
    nlinarith
  · show (-1 + 0.08) + ((1 - 0.08) - (-1 + 0.08)) *
      logisticIter (1 + (rMax - 1) * tc) (300 + i + 1) ≤ 1 - 0.08
    nlinarith

/-- C5: out-of-range parameters are neutralized by the internal clamps
(each render equals the render at the clamped parameter; in particular
cantor at depth 999 produces exactly the geometry of depth 12), the
geometric visualizer at ratio 1 suppresses the convergence marker instead
of dividing by zero, every scale denominator built with the 0.001 floor is
at least 1/1000 (and the harmonic y-scale at least 1), every quad any
variant emits has nonnegative width and height, and every logistic sample
point stays inside the vertical viewport - the exact-arithmetic content of
"no NaN, no infinite coordinate, no negative-size shape". -/
theorem params_clamped_safe_geometry :
    (∀ t : ℚ, cantorRender ((999 : ℕ) : ℚ) t = cantorRender ((12 : ℕ) : ℚ) t) ∧
    (∀ p t : ℚ, cantorRender p t =
      cantorRender ((clampZ (truncQ p) 1 12 : ℤ) : ℚ) t) ∧
    (∀ p t s3 : ℚ, harmonicRender p t s3 =
      harmonicRender ((clampZ (truncQ p) 1 2000 : ℤ) : ℚ) t s3) ∧
    (∀ r p t s3 : ℚ, geometricRender r p t s3 =
      geometricRender (clampQ r (-2) 2)
        ((clampZ (truncQ p) 1 50 : ℤ) : ℚ) t s3) ∧
    (∀ p t s3 : ℚ, baselRender p t s3 =
      baselRender ((clampZ (truncQ p) 1 2000 : ℤ) : ℚ) t s3) ∧
    (∀ p t s3 : ℚ, eSeriesRender p t s3 =
      eSeriesRender ((clampZ (truncQ p) 1 25 : ℤ) : ℚ) t s3) ∧
    (∀ p t s3 : ℚ, altRender p t s3 =
      altRender ((clampZ (truncQ p) 1 2000 : ℤ) : ℚ) t s3) ∧
    (∀ p t s3 : ℚ, aperyRender p t s3 =
      aperyRender ((clampZ (truncQ p) 1 200 : ℤ) : ℚ) t s3) ∧
    (∀ p t s3 : ℚ, gregoryRender p t s3 =
      gregoryRender ((clampZ (truncQ p) 1 2000 : ℤ) : ℚ) t s3) ∧
    (∀ r p t s3 : ℚ, invGeometricRender r p t s3 =
      invGeometricRender (clampQ r (-2) 2)
        ((clampZ (truncQ p) 1 50 : ℤ) : ℚ) t s3) ∧
    (∀ g w t : ℚ, logisticRender g w t = logisticRender (clampQ g 1 4) w t) ∧
    (∀ p t s3 : ℚ, (geometricRender 1 p t s3).limitLine = none) ∧
    (∀ (r : ℚ) (n : ℕ), 1 / 1000 ≤ geometricScale r n) ∧
    (∀ n : ℕ, 1 / 1000 ≤ altScale n) ∧
    (∀ n : ℕ, 1 / 1000 ≤ gregScale n) ∧
    (∀ n : ℕ, (1 : ℚ) ≤ max 1 (harmonicMaxSum n)) ∧
    (∀ p t : ℚ, quadsWF (cantorRender p t).quads = true) ∧
    (∀ p t s3 : ℚ, quadsWF (harmonicRender p t s3).quads = true) ∧
    (∀ r p t s3 : ℚ, quadsWF (geometricRender r p t s3).quads = true) ∧
    (∀ p t s3 : ℚ, quadsWF (baselRender p t s3).quads = true) ∧
    (∀ p t s3 : ℚ, quadsWF (eSeriesRender p t s3).quads = true) ∧
    (∀ p t s3 : ℚ, quadsWF (altRender p t s3).quads = true) ∧
    (∀ p t s3 : ℚ, quadsWF (aperyRender p t s3).quads = true) ∧
    (∀ p t s3 : ℚ, quadsWF (gregoryRender p t s3).quads = true) ∧
    (∀ r p t s3 : ℚ, quadsWF (invGeometricRender r p t s3).quads = true) ∧
    (∀ g w t : ℚ, ∀ v ∈ (logisticRender g w t).points,
      (-1 + 0.08 : ℚ) ≤ v.y ∧ v.y ≤ 1 - 0.08) := by
  refine ⟨?_, ?_, ?_, ?_, ?_, ?_, ?_, ?_, ?_, ?_, ?_, ?_, ?_, ?_, ?_, ?_,
    ?_, ?_, ?_, ?_, ?_, ?_, ?_, ?_, ?_, ?_⟩
  · intro t
    unfold cantorRender
    rw [truncQ_natCast, truncQ_natCast,
      show (clampZ ((999 : ℕ) : ℤ) 1 12) = 12 from by unfold clampZ; omega,
      show (clampZ ((12 : ℕ) : ℤ) 1 12) = 12 from by unfold clampZ; omega]
  · intro p t
    unfold cantorRender
    rw [clampZ_truncQ_cast p (by decide)]
  · intro p t s3
    unfold harmonicRender
    rw [clampZ_truncQ_cast p (by decide)]
  · intro r p t s3
    unfold geometricRender
    rw [clampZ_truncQ_cast p (by decide), clampQ_idem (by norm_num)]
  · intro p t s3
    unfold baselRender
    rw [clampZ_truncQ_cast p (by decide)]
  · intro p t s3
    unfold eSeriesRender
    rw [clampZ_truncQ_cast p (by decide)]
  · intro p t s3
    unfold altRender
    rw [clampZ_truncQ_cast p (by decide)]
  · intro p t s3
    unfold aperyRender
    rw [clampZ_truncQ_cast p (by decide)]
  · intro p t s3
    unfold gregoryRender
    rw [clampZ_truncQ_cast p (by decide)]
  · intro r p t s3
    unfold invGeometricRender
    rw [clampZ_truncQ_cast p (by decide), clampQ_idem (by norm_num)]
  · intro g w t
    unfold logisticRender
    rw [clampQ_idem (by norm_num)]
  · intro p t s3
    unfold geometricRender
    rw [show clampQ 1 (-2) 2 = 1 from clampQ_eq_self (by norm_num) (by norm_num)]
    show (if |(1 : ℚ)| < 1 ∧ 1e-6 < |1 - (1 : ℚ)| ∧
        ((clampZ (truncQ p) 1 50).toNat : ℤ) ≤
          visibleCount (clampZ (truncQ p) 1 50).toNat (t * 8)
      then some (1 / (1 - (1 : ℚ))) else none) = none
    rw [if_neg]
    rintro ⟨habs, _⟩
    rw [abs_one] at habs
    exact lt_irrefl 1 habs
  · intro r n
    exact le_trans (by norm_num) (le_max_right _ (0.001 : ℚ))
  · intro n
    exact le_trans (by norm_num) (le_max_right _ (0.001 : ℚ))
  · intro n
    exact le_trans (by norm_num) (le_max_right _ (0.001 : ℚ))
  · intro n
    exact le_max_left 1 (harmonicMaxSum n)
  · intro p t
    exact cantorRenderCore_wf _ t
  · intro p t s3
    exact harmonicRenderCore_wf _ t s3
  · intro r p t s3
    exact geometricRenderCore_wf _ _ t s3
  · intro p t s3
    exact baselRenderCore_wf _ t s3
  · intro p t s3
    exact eSeriesRenderCore_wf _ t s3
  · intro p t s3
    exact altRenderCore_wf _ t s3
  · intro p t s3
    exact aperyRenderCore_wf _ t s3
  · intro p t s3
    exact gregoryRenderCore_wf _ t s3
  · intro r p t s3
    exact geometricRenderCore_wf _ _ t s3
  · intro g w t
    exact logisticRenderCore_points_bound (clampQ g 1 4) w t
      (clampQ_ge (by norm_num)) clampQ_le
